import Mathlib

/-!
Verification development for the ForgeAi merge core (src-tauri/src/merge).

The Rust sources are shallowly embedded: dense tensor data becomes lists of
rationals (`List ℚ`) for the exact block/arithmetic algorithms, and functions
`Fin n → ℝ` for the spherical-interpolation code whose mathematics is over
the reals.  f64/f32 arithmetic is idealised as exact arithmetic; machine
integers are `ℕ` (byte values are naturals below 256, f32 bit patterns are
naturals below 2^32).  Fallible Rust functions returning
`Result<_, ModelError>` become `Except MError _`.
-/

/-- Mirror of `ModelError` (src-tauri/src/model/error.rs).  Only the payload
relevant to control flow is kept; formatted message fragments become fields. -/
inductive MError where
  | fileNotFound (path : String)
  | ioErr (msg : String)
  | unsupportedFormat (msg : String)
  | parseError (format : String) (reason : String)
  | fileTooSmall (bytes : ℕ)
  | mergeError (msg : String)
  | mergeCancelled
  | incompatibleModels (msg : String)
  | parentNotFound (id : String)
  | registryFull (n : ℕ)
  | profilerError (msg : String)
  | candleError (msg : String)
  | tensorNotFound (tensorName : String) (parentId : String)
deriving DecidableEq

/-! Dense tensor data as lists of rationals.  The candle elementwise tensor
operations used by the merge strategies (`&a + &b`, `&a - &b`, `&t * c`,
`Tensor::zeros_like`) become `zipWith`/`map` operations. -/

/-- Elementwise addition of two dense buffers (candle `&a + &b`). -/
def vadd (a b : List ℚ) : List ℚ := List.zipWith (· + ·) a b

/-- Elementwise subtraction (candle `&a - &b`). -/
def vsub (a b : List ℚ) : List ℚ := List.zipWith (· - ·) a b

/-- Scaling of a dense buffer by a scalar (candle `&t * c`). -/
def vscale (c : ℚ) (v : List ℚ) : List ℚ := v.map (fun x => c * x)

/-- Zero-filled buffer of a given element count (candle `Tensor::zeros_like`). -/
def vzero (n : ℕ) : List ℚ := List.replicate n 0

/-- Sum of the configured weights, `tensors.iter().map(|(_, w)| w).sum()`. -/
def totalWeight (ts : List (List ℚ × ℚ)) : ℚ := (ts.map (fun p => p.2)).sum

/-- Embedding of `AverageMerge::merge`
(src-tauri/src/merge/methods/average.rs, lines 11-41): empty input errors,
a single tensor is returned unchanged, otherwise each tensor is scaled by
`weight / total_weight` and the scaled tensors are accumulated left to right. -/
def averageMerge (ts : List (List ℚ × ℚ)) : Except MError (List ℚ) :=
  match ts with
  | [] => .error (.mergeError "No tensors to average")
  | [p] => .ok p.1
  | p :: rest =>
    let w := totalWeight (p :: rest)
    if w ≤ 0 then .error (.mergeError "Total weight must be positive")
    else .ok (rest.foldl (fun acc q => vadd acc (vscale (q.2 / w) q.1)) (vscale (p.2 / w) p.1))

/-- Spec-side definition, following the words of the claim (not the code):
the merged tensor whose element `k` is the sum over all inputs of
weight times element `k`, divided by the total weight. -/
def specWeightedAverage (ts : List (List ℚ × ℚ)) (n : ℕ) : List ℚ :=
  (List.range n).map (fun k => (ts.map (fun p => p.2 * p.1.getD k 0)).sum / totalWeight ts)

/-! Basic lemmas about the dense-buffer operations. -/

theorem vadd_length (a b : List ℚ) : (vadd a b).length = min a.length b.length := by
  simp [vadd]

theorem vscale_length (c : ℚ) (v : List ℚ) : (vscale c v).length = v.length := by
  simp [vscale]

theorem vadd_getD (a b : List ℚ) (k : ℕ) (h1 : k < a.length) (h2 : k < b.length) :
    (vadd a b).getD k 0 = a.getD k 0 + b.getD k 0 := by
  have hk : k < (vadd a b).length := by
    rw [vadd_length]; exact lt_min h1 h2
  rw [List.getD_eq_getElem _ _ hk, List.getD_eq_getElem _ _ h1, List.getD_eq_getElem _ _ h2]
  simp [vadd]

theorem vscale_getD (c : ℚ) (v : List ℚ) (k : ℕ) (h : k < v.length) :
    (vscale c v).getD k 0 = c * v.getD k 0 := by
  have hk : k < (vscale c v).length := by rw [vscale_length]; exact h
  rw [List.getD_eq_getElem _ _ hk, List.getD_eq_getElem _ _ h]
  simp [vscale]

theorem list_eq_range_map_getD (v : List ℚ) (n : ℕ) (h : v.length = n) :
    v = (List.range n).map (fun k => v.getD k 0) := by
  apply List.ext_getElem
  · simp [h]
  · intro i h1 h2
    simp only [List.getElem_map, List.getElem_range]
    rw [List.getD_eq_getElem _ _ h1]

theorem avgLoop_length (w : ℚ) (rest : List (List ℚ × ℚ)) (acc : List ℚ) (n : ℕ)
    (hacc : acc.length = n) (hrest : ∀ p ∈ rest, p.1.length = n) :
    (rest.foldl (fun a q => vadd a (vscale (q.2 / w) q.1)) acc).length = n := by
  induction rest generalizing acc with
  | nil => exact hacc
  | cons q rest ih =>
    simp only [List.foldl_cons]
    apply ih
    · rw [vadd_length, vscale_length, hacc, hrest q (by simp)]
      simp
    · intro p hp; exact hrest p (by simp [hp])

theorem avgLoop_getD (w : ℚ) (rest : List (List ℚ × ℚ)) (acc : List ℚ) (n : ℕ)
    (hacc : acc.length = n) (hrest : ∀ p ∈ rest, p.1.length = n) (k : ℕ) (hk : k < n) :
    (rest.foldl (fun a q => vadd a (vscale (q.2 / w) q.1)) acc).getD k 0 =
      acc.getD k 0 + (rest.map (fun q => q.2 * q.1.getD k 0)).sum / w := by
  induction rest generalizing acc with
  | nil => simp
  | cons q rest ih =>
    simp only [List.foldl_cons]
    have hq : q.1.length = n := hrest q (by simp)
    have hacc2 : (vadd acc (vscale (q.2 / w) q.1)).length = n := by
      rw [vadd_length, vscale_length, hacc, hq]; simp
    rw [ih _ hacc2 (fun p hp => hrest p (by simp [hp]))]
    rw [vadd_getD _ _ _ (by omega) (by rw [vscale_length]; omega)]
    rw [vscale_getD _ _ _ (by omega)]
    simp only [List.map_cons, List.sum_cons]
    rw [add_div, div_mul_eq_mul_div]
    ring

/-- Claim C1: for every non-empty list of equal-shape (tensor, weight) pairs
whose weights sum to a positive value, `AverageMerge::merge` returns the sum
of each tensor scaled by its weight, divided by the total weight (whether or
not the weights sum to exactly 1). -/
theorem averageMerge_eq_specWeightedAverage (ts : List (List ℚ × ℚ)) (n : ℕ)
    (hne : ts ≠ []) (hlen : ∀ p ∈ ts, p.1.length = n) (hw : 0 < totalWeight ts) :
    averageMerge ts = .ok (specWeightedAverage ts n) := by
  match ts with
  | [] => exact absurd rfl hne
  | [p] =>
    have hp : p.1.length = n := hlen p (by simp)
    have hwp : totalWeight [p] = p.2 := by simp [totalWeight]
    have hp2 : p.2 ≠ 0 := by
      rw [hwp] at hw; exact ne_of_gt hw
    simp only [averageMerge, specWeightedAverage, hwp]
    congr 1
    calc p.1 = (List.range n).map (fun k => p.1.getD k 0) := list_eq_range_map_getD p.1 n hp
      _ = (List.range n).map (fun k => ([p].map (fun q => q.2 * q.1.getD k 0)).sum / p.2) := by
          apply List.map_congr_left
          intro k _
          rw [List.map_singleton, List.sum_singleton, mul_div_cancel_left₀ _ hp2]
  | p :: q :: rest =>
    have hwne : ¬ totalWeight (p :: q :: rest) ≤ 0 := not_le.mpr hw
    simp only [averageMerge, hwne, if_false]
    congr 1
    set w := totalWeight (p :: q :: rest) with hwdef
    have hplen : p.1.length = n := hlen p (by simp)
    have hinit : (vscale (p.2 / w) p.1).length = n := by rw [vscale_length]; exact hplen
    have hr : ∀ x ∈ q :: rest, x.1.length = n := fun x hx => hlen x (by simp [hx])
    apply List.ext_getElem
    · rw [avgLoop_length w _ _ n hinit hr]
      simp [specWeightedAverage]
    · intro i h1 h2
      have hi : i < n := by
        rw [avgLoop_length w _ _ n hinit hr] at h1; exact h1
      have hfold := avgLoop_getD w (q :: rest) (vscale (p.2 / w) p.1) n hinit hr i hi
      rw [List.getD_eq_getElem _ _ h1] at hfold
      rw [hfold, vscale_getD _ _ _ (by omega)]
      simp only [specWeightedAverage, List.getElem_map, List.getElem_range]
      simp only [List.map_cons, List.sum_cons]
      rw [add_div, add_div, div_mul_eq_mul_div]
      rw [← hwdef, add_div]

/-- Witness for C1 at a concrete input: two 2-element tensors with weights
0.3 and 0.7 (which happen to sum to 1 only up to rounding in the spec text;
here exactly 1 is irrelevant since the hypothesis is just positivity). -/
theorem averageMerge_eq_specWeightedAverage_witness :
    averageMerge [([1, 2], 3/10), ([5, 6], 7/10)] =
      .ok (specWeightedAverage [([1, 2], 3/10), ([5, 6], 7/10)] 2) :=
  averageMerge_eq_specWeightedAverage [([1, 2], 3/10), ([5, 6], 7/10)] 2
    (by decide) (by decide) (by norm_num [totalWeight])

/-! Embedding of the GGML block dequantizers
(src-tauri/src/merge/tensor_io.rs, lines 498-591).  Byte buffers are lists of
naturals (each entry a byte value below 256); the decoded f32 data is exact
rational arithmetic. -/

/-- Value of an IEEE-754 half-precision bit pattern
(the half crate's `f16::from_le_bytes(..).to_f32()`), as an exact rational.
Finite values are represented exactly; the infinity/NaN exponent 31 has no
rational value and is mapped to 0 — every theorem about a scale restricts to
finite bit patterns, so this corner is never relied on. -/
def f16ToRat (bits : ℕ) : ℚ :=
  let b := bits % 65536
  let sign : ℚ := if b / 32768 % 2 = 1 then -1 else 1
  let e := b / 1024 % 32
  let m := b % 1024
  if e = 0 then sign * (m : ℚ) / 2 ^ 24
  else if e = 31 then 0
  else sign * ((1024 + m : ℕ) : ℚ) * 2 ^ e / 2 ^ 25

/-- Signed value of a byte reinterpreted as Rust `i8` (`data[..] as i8`). -/
def i8val (b : ℕ) : ℤ := (b % 256 : ℕ) - (if 128 ≤ b % 256 then 256 else 0)

/-- Decode of one Q4_0 block starting at byte offset `bo`: a 16-bit
little-endian scale followed by 16 bytes, each byte yielding
`(low nibble - 8) * scale` then `(high nibble - 8) * scale`
(inner loop of `dequantize_q4_0`). -/
def q4_0Block (data : List ℕ) (bo : ℕ) : List ℚ :=
  let scale := f16ToRat (data.getD bo 0 + 256 * data.getD (bo + 1) 0)
  (List.range 16).foldr (fun j acc =>
    let byte := data.getD (bo + 2 + j) 0
    ((((byte % 16 : ℕ) : ℚ) - 8) * scale) ::
      ((((byte / 16 % 16 : ℕ) : ℚ) - 8) * scale) :: acc) []

/-- Block loop of `dequantize_q4_0`: first argument counts the remaining
blocks, second is the current block index; a block whose 18 bytes extend past
the end of the buffer stops the loop (the Rust `break`). -/
def deqQ4_0Blocks (data : List ℕ) : ℕ → ℕ → List ℚ
  | 0, _ => []
  | n + 1, i =>
    if data.length < i * 18 + 18 then []
    else q4_0Block data (i * 18) ++ deqQ4_0Blocks data n (i + 1)

/-- Embedding of `dequantize_q4_0` (tensor_io.rs lines 498-527):
ceil(elemCount / 32) blocks of 18 bytes each, output truncated to
`elemCount` entries. -/
def dequantize_q4_0 (data : List ℕ) (elemCount : ℕ) : List ℚ :=
  (deqQ4_0Blocks data ((elemCount + 32 - 1) / 32) 0).take elemCount

/-- Decode of one Q4_1 block (scale, min offset, 16 unsigned nibble bytes);
inner loop of `dequantize_q4_1`. -/
def q4_1Block (data : List ℕ) (bo : ℕ) : List ℚ :=
  let scale := f16ToRat (data.getD bo 0 + 256 * data.getD (bo + 1) 0)
  let mn := f16ToRat (data.getD (bo + 2) 0 + 256 * data.getD (bo + 3) 0)
  (List.range 16).foldr (fun j acc =>
    let byte := data.getD (bo + 4 + j) 0
    (((byte % 16 : ℕ) : ℚ) * scale + mn) ::
      (((byte / 16 % 16 : ℕ) : ℚ) * scale + mn) :: acc) []

/-- Block loop of `dequantize_q4_1` (20-byte blocks). -/
def deqQ4_1Blocks (data : List ℕ) : ℕ → ℕ → List ℚ
  | 0, _ => []
  | n + 1, i =>
    if data.length < i * 20 + 20 then []
    else q4_1Block data (i * 20) ++ deqQ4_1Blocks data n (i + 1)

/-- Embedding of `dequantize_q4_1` (tensor_io.rs lines 529-563). -/
def dequantize_q4_1 (data : List ℕ) (elemCount : ℕ) : List ℚ :=
  (deqQ4_1Blocks data ((elemCount + 32 - 1) / 32) 0).take elemCount

/-- Decode of one Q8_0 block (scale then 32 signed bytes);
inner loop of `dequantize_q8_0`. -/
def q8_0Block (data : List ℕ) (bo : ℕ) : List ℚ :=
  let scale := f16ToRat (data.getD bo 0 + 256 * data.getD (bo + 1) 0)
  (List.range 32).foldr (fun j acc =>
    ((i8val (data.getD (bo + 2 + j) 0) : ℚ) * scale) :: acc) []

/-- Block loop of `dequantize_q8_0` (34-byte blocks). -/
def deqQ8_0Blocks (data : List ℕ) : ℕ → ℕ → List ℚ
  | 0, _ => []
  | n + 1, i =>
    if data.length < i * 34 + 34 then []
    else q8_0Block data (i * 34) ++ deqQ8_0Blocks data n (i + 1)

/-- Embedding of `dequantize_q8_0` (tensor_io.rs lines 565-591). -/
def dequantize_q8_0 (data : List ℕ) (elemCount : ℕ) : List ℚ :=
  (deqQ8_0Blocks data ((elemCount + 32 - 1) / 32) 0).take elemCount

/-! Indexing lemma for the interleaved push pattern of the Q4 inner loops. -/

theorem interleave_foldr_length (f g : ℕ → ℚ) (m : ℕ) :
    ((List.range m).foldr (fun j acc => f j :: g j :: acc) []).length = 2 * m := by
  induction m generalizing f g with
  | zero => simp
  | succ m ih =>
    rw [List.range_succ_eq_map, List.foldr_cons, List.foldr_map]
    simp only [List.length_cons]
    rw [ih (fun j => f (j + 1)) (fun j => g (j + 1))]
    omega

theorem interleave_foldr_getD (f g : ℕ → ℚ) (m : ℕ) (j : ℕ) (hj : j < m) :
    ((List.range m).foldr (fun i acc => f i :: g i :: acc) []).getD (2 * j) 0 = f j ∧
      ((List.range m).foldr (fun i acc => f i :: g i :: acc) []).getD (2 * j + 1) 0 = g j := by
  induction m generalizing f g j with
  | zero => omega
  | succ m ih =>
    rw [List.range_succ_eq_map, List.foldr_cons, List.foldr_map]
    match j with
    | 0 => simp
    | j + 1 =>
      have ihj := ih (fun i => f (i + 1)) (fun i => g (i + 1)) j (by omega)
      constructor
      · have h2 : 2 * (j + 1) = (2 * j + 1) + 1 := by omega
        rw [h2, List.getD_cons_succ, List.getD_cons_succ]
        exact ihj.1
      · have h3 : 2 * (j + 1) + 1 = ((2 * j + 1) + 1) + 1 := by omega
        rw [h3, List.getD_cons_succ, List.getD_cons_succ]
        exact ihj.2

/-- Claim C6: `dequantize_q4_0` decodes an 18-byte Q4_0 block as one 16-bit
little-endian scale followed by 16 nibble-pair bytes, each byte producing
`(low nibble - 8) * scale` then `(high nibble - 8) * scale`; in particular a
block with scale 1.0 (bits 0x3C00) and all bytes 0x88 decodes to all zeros,
and a byte 0xF0 decodes to one element equal to -8 and one equal to 7. -/
theorem dequantize_q4_0_spec :
    (∀ (s0 s1 : ℕ) (bs : List ℕ), bs.length = 16 →
      (dequantize_q4_0 (s0 :: s1 :: bs) 32).length = 32 ∧
      ∀ j < 16,
        (dequantize_q4_0 (s0 :: s1 :: bs) 32).getD (2 * j) 0 =
          (((bs.getD j 0 % 16 : ℕ) : ℚ) - 8) * f16ToRat (s0 + 256 * s1) ∧
        (dequantize_q4_0 (s0 :: s1 :: bs) 32).getD (2 * j + 1) 0 =
          (((bs.getD j 0 / 16 % 16 : ℕ) : ℚ) - 8) * f16ToRat (s0 + 256 * s1)) ∧
    dequantize_q4_0 (0x00 :: 0x3C :: List.replicate 16 0x88) 32 = List.replicate 32 0 ∧
    dequantize_q4_0 (0x00 :: 0x3C :: 0xF0 :: List.replicate 15 0x88) 32 =
      -8 :: 7 :: List.replicate 30 0 := by
  refine ⟨?_, ?_, ?_⟩
  · intro s0 s1 bs hbs
    have hblock : dequantize_q4_0 (s0 :: s1 :: bs) 32 =
        (q4_0Block (s0 :: s1 :: bs) 0).take 32 := by
      show (deqQ4_0Blocks (s0 :: s1 :: bs) ((32 + 32 - 1) / 32) 0).take 32 = _
      norm_num [deqQ4_0Blocks, hbs]
    have hfold : q4_0Block (s0 :: s1 :: bs) 0 =
        (List.range 16).foldr (fun j acc =>
          (((((s0 :: s1 :: bs).getD (0 + 2 + j) 0 % 16 : ℕ) : ℚ) - 8) *
              f16ToRat ((s0 :: s1 :: bs).getD (0 * 18) 0 +
                256 * (s0 :: s1 :: bs).getD (0 * 18 + 1) 0)) ::
            (((((s0 :: s1 :: bs).getD (0 + 2 + j) 0 / 16 % 16 : ℕ) : ℚ) - 8) *
              f16ToRat ((s0 :: s1 :: bs).getD (0 * 18) 0 +
                256 * (s0 :: s1 :: bs).getD (0 * 18 + 1) 0)) :: acc) [] := by
      simp [q4_0Block]
    have hblen : (q4_0Block (s0 :: s1 :: bs) 0).length = 32 := by
      rw [hfold, interleave_foldr_length]
    have htake : dequantize_q4_0 (s0 :: s1 :: bs) 32 = q4_0Block (s0 :: s1 :: bs) 0 := by
      rw [hblock, List.take_of_length_le (le_of_eq hblen)]
    have hget : ∀ j, (s0 :: s1 :: bs).getD (0 + 2 + j) 0 = bs.getD j 0 := by
      intro j
      have : 0 + 2 + j = (j + 1) + 1 := by omega
      rw [this, List.getD_cons_succ, List.getD_cons_succ]
    have hscale : (s0 :: s1 :: bs).getD (0 * 18) 0 +
        256 * (s0 :: s1 :: bs).getD (0 * 18 + 1) 0 = s0 + 256 * s1 := by
      simp
    refine ⟨by rw [htake, hblen], ?_⟩
    intro j hj
    have h := interleave_foldr_getD
      (fun i => (((((s0 :: s1 :: bs).getD (0 + 2 + i) 0 % 16 : ℕ) : ℚ) - 8) *
        f16ToRat ((s0 :: s1 :: bs).getD (0 * 18) 0 +
          256 * (s0 :: s1 :: bs).getD (0 * 18 + 1) 0)))
      (fun i => (((((s0 :: s1 :: bs).getD (0 + 2 + i) 0 / 16 % 16 : ℕ) : ℚ) - 8) *
        f16ToRat ((s0 :: s1 :: bs).getD (0 * 18) 0 +
          256 * (s0 :: s1 :: bs).getD (0 * 18 + 1) 0)))
      16 j hj
    rw [htake, hfold]
    simp only [hget, hscale] at h
    exact h
  · norm_num [dequantize_q4_0, deqQ4_0Blocks, q4_0Block, f16ToRat, List.range_succ,
      List.replicate_succ, List.getD_cons_succ, List.getD_cons_zero]
  · norm_num [dequantize_q4_0, deqQ4_0Blocks, q4_0Block, f16ToRat, List.range_succ,
      List.replicate_succ, List.getD_cons_succ, List.getD_cons_zero]

/-- Witness for C6 at a concrete block: scale bits 0x3C00 (value 1.0) and all
data bytes 0x11, checking the decoded low/high nibble values of byte 0. -/
theorem dequantize_q4_0_spec_witness :
    (dequantize_q4_0 (0x00 :: 0x3C :: List.replicate 16 0x11) 32).length = 32 ∧
      (dequantize_q4_0 (0x00 :: 0x3C :: List.replicate 16 0x11) 32).getD 0 0 =
        ((((List.replicate 16 0x11 : List ℕ).getD 0 0 % 16 : ℕ) : ℚ) - 8) *
          f16ToRat (0x00 + 256 * 0x3C) := by
  have h := (dequantize_q4_0_spec.1 0x00 0x3C (List.replicate 16 0x11) (by decide))
  refine ⟨h.1, ?_⟩
  have h0 := (h.2 0 (by decide)).1
  simpa using h0

/-! Data model of the parent registry
(src-tauri/src/model/mod.rs and src-tauri/src/merge/registry.rs). -/

/-- Mirror of `ModelFormat` (model/mod.rs). -/
inductive ModelFormat where
  | safeTensors
  | gguf
deriving DecidableEq

/-- Mirror of `TensorInfo` (model/mod.rs). -/
structure TensorInfo where
  name : String
  dtype : String
  shape : List ℕ
deriving DecidableEq

/-- Mirror of `ModelInfo` (model/mod.rs).  The `HashMap<String, String>`
metadata becomes an association list with unique keys; `tensor_preview` is
carried but never read by the merge core. -/
structure ModelInfo where
  file_name : String
  file_path : String
  file_size : ℕ
  file_size_display : String
  format : ModelFormat
  tensor_count : ℕ
  parameter_count : ℕ
  parameter_count_display : String
  layer_count : Option ℕ
  quantization : Option String
  architecture : Option String
  context_length : Option ℕ
  embedding_size : Option ℕ
  metadata : List (String × String)
  tensor_preview : List TensorInfo
  all_tensors : List TensorInfo
  shard_count : Option ℕ
  has_tokenizer : Option Bool
  has_config : Option Bool
  model_type : Option String
  vocab_size : Option ℕ
deriving DecidableEq

/-- Mirror of `TensorMeta` (registry.rs). -/
structure TensorMeta where
  name : String
  shape : List ℕ
  dtype : String
deriving DecidableEq

/-- Mirror of `CompatInfo` (registry.rs). -/
structure CompatInfo where
  architecture : Option String
  hidden_size : Option ℕ
  num_layers : Option ℕ
  num_attention_heads : Option ℕ
  num_kv_heads : Option ℕ
  vocab_size : Option ℕ
  context_length : Option ℕ
  tensor_metas : List TensorMeta
deriving DecidableEq

/-- Mirror of `CompatInfo::tensor_names` (registry.rs). -/
def CompatInfo.tensor_names (c : CompatInfo) : List String :=
  c.tensor_metas.map (fun t => t.name)

/-- Mirror of `CompatInfo::tensor_shape` (registry.rs): shape of the first
meta entry with the given name. -/
def CompatInfo.tensor_shape (c : CompatInfo) (name : String) : Option (List ℕ) :=
  (c.tensor_metas.find? (fun t => t.name == name)).map (fun t => t.shape)

/-- Mirror of `CompatInfo::from_model_info` (registry.rs).  Rust
`str::parse::<u64>().ok()` is modelled by `String.toNat?` (layer counts and
head counts are far below 2^64, where the two differ). -/
def CompatInfo.from_model_info (info : ModelInfo) : CompatInfo :=
  let tensor_metas := info.all_tensors.map (fun t =>
    TensorMeta.mk t.name t.shape t.dtype)
  let arch_pre := (List.lookup "general.architecture" info.metadata).getD ""
  let num_attention_heads :=
    (List.lookup (arch_pre ++ ".attention.head_count") info.metadata).bind String.toNat?
  let num_kv_heads :=
    (List.lookup (arch_pre ++ ".attention.head_count_kv") info.metadata).bind String.toNat?
  let vocab_size := info.vocab_size.orElse (fun _ =>
    (List.lookup "tokenizer.ggml.tokens_count" info.metadata).bind String.toNat?)
  let context_length := info.context_length.orElse (fun _ =>
    (List.lookup (arch_pre ++ ".context_length") info.metadata).bind String.toNat?)
  { architecture := info.architecture
    hidden_size := info.embedding_size
    num_layers := info.layer_count
    num_attention_heads := num_attention_heads
    num_kv_heads := num_kv_heads
    vocab_size := vocab_size
    context_length := context_length
    tensor_metas := tensor_metas }

/-- Mirror of `ParentModel` (registry.rs). -/
structure ParentModel where
  id : String
  slot : ℕ
  name : String
  file_path : String
  format : ModelFormat
  file_size : ℕ
  file_size_display : String
  parameter_count : ℕ
  parameter_count_display : String
  layer_count : Option ℕ
  architecture : Option String
  quantization : Option String
  compat : CompatInfo
  color : String
  is_dir : Bool
deriving DecidableEq

/-- Mirror of `GENE_COLORS` (registry.rs). -/
def GENE_COLORS : List String :=
  ["#FF6B35", "#4ECDC4", "#95E1D3", "#A78BFA", "#F472B6", "#FACC15"]

/-- Mirror of `ParentRegistry` (registry.rs): an ordered list of parents. -/
structure ParentRegistry where
  parents : List ParentModel
deriving DecidableEq

/-- Mirror of `ParentRegistry::get` (registry.rs). -/
def ParentRegistry.get (reg : ParentRegistry) (parent_id : String) : Option ParentModel :=
  reg.parents.find? (fun p => p.id == parent_id)

/-- Mirror of `ParentRegistry::add` (registry.rs, lines 122-154).
Rust mutates `&mut self` and returns `Result<ParentModel, String>`; here the
post-state is returned alongside the result (on the error paths the Rust
method returns before any mutation, so the state component is the input
registry).  `uuid::Uuid::new_v4()` is nondeterministic and becomes the
explicit `fresh_id` argument. -/
def ParentRegistry.add (reg : ParentRegistry) (info : ModelInfo) (slot : ℕ)
    (is_dir : Bool) (fresh_id : String) : Except String ParentModel × ParentRegistry :=
  if 5 ≤ reg.parents.length then
    (.error "Maximum 5 parents allowed", reg)
  else if reg.parents.any (fun p => p.slot == slot) then
    (.error ("Slot " ++ toString slot ++ " already occupied"), reg)
  else
    let color_idx := reg.parents.length % GENE_COLORS.length
    let compat := CompatInfo.from_model_info info
    let parent : ParentModel :=
      { id := fresh_id
        slot := slot
        name := info.file_name
        file_path := info.file_path
        format := info.format
        file_size := info.file_size
        file_size_display := info.file_size_display
        parameter_count := info.parameter_count
        parameter_count_display := info.parameter_count_display
        layer_count := info.layer_count
        architecture := info.architecture
        quantization := info.quantization
        compat := compat
        color := GENE_COLORS.getD color_idx ""
        is_dir := is_dir }
    (.ok parent, ParentRegistry.mk (reg.parents ++ [parent]))

/-- Mirror of `ParentRegistry::shared_tensor_names` (registry.rs): the
intersection of all parents' tensor-name sets, empty when fewer than two
parents are loaded.  The Rust `HashSet` is consumed only through `contains`,
so an order-preserving list is an adequate model. -/
def ParentRegistry.shared_tensor_names (reg : ParentRegistry) : List String :=
  match reg.parents with
  | [] => []
  | [_] => []
  | first :: rest =>
    rest.foldl
      (fun acc p => acc.filter (fun n => p.compat.tensor_metas.any (fun t => t.name == n)))
      (first.compat.tensor_metas.map (fun t => t.name))

/-- Claim C8: adding to a registry that already holds 5 parents, or adding
into an occupied slot, returns an error and leaves the parent list unchanged
(same length, same ids, same slots). -/
theorem registry_add_rejects_full_and_occupied (reg : ParentRegistry)
    (info : ModelInfo) (slot : ℕ) (is_dir : Bool) (fresh_id : String) :
    (5 ≤ reg.parents.length →
      (reg.add info slot is_dir fresh_id).1 = .error "Maximum 5 parents allowed" ∧
      (reg.add info slot is_dir fresh_id).2 = reg) ∧
    ((∃ p ∈ reg.parents, p.slot = slot) →
      (∃ e, (reg.add info slot is_dir fresh_id).1 = .error e) ∧
      (reg.add info slot is_dir fresh_id).2 = reg) := by
  constructor
  · intro hfull
    unfold ParentRegistry.add
    rw [if_pos hfull]
    exact ⟨rfl, rfl⟩
  · intro hocc
    by_cases hfull : 5 ≤ reg.parents.length
    · unfold ParentRegistry.add
      rw [if_pos hfull]
      exact ⟨⟨_, rfl⟩, rfl⟩
    · have hany : reg.parents.any (fun p => p.slot == slot) = true := by
        obtain ⟨p, hp, hps⟩ := hocc
        exact List.any_eq_true.mpr ⟨p, hp, by simp [hps]⟩
      unfold ParentRegistry.add
      rw [if_neg hfull, if_pos hany]
      exact ⟨⟨_, rfl⟩, rfl⟩

/-- Concrete `ModelInfo` used by the registry witness. -/
def sampleModelInfo : ModelInfo :=
  { file_name := "model.safetensors"
    file_path := "/models/model.safetensors"
    file_size := 1024
    file_size_display := "1.00 KB"
    format := .safeTensors
    tensor_count := 1
    parameter_count := 4
    parameter_count_display := "4"
    layer_count := some 1
    quantization := none
    architecture := some "llama"
    context_length := some 2048
    embedding_size := some 4
    metadata := []
    tensor_preview := []
    all_tensors := [TensorInfo.mk "w" "F32" [2, 2]]
    shard_count := none
    has_tokenizer := none
    has_config := none
    model_type := none
    vocab_size := none }

/-- Concrete parent occupying a given slot, used by the registry witness. -/
def sampleParent (slot : ℕ) : ParentModel :=
  { id := "id-" ++ toString slot
    slot := slot
    name := "parent"
    file_path := "/models/parent"
    format := .safeTensors
    file_size := 1024
    file_size_display := "1.00 KB"
    parameter_count := 4
    parameter_count_display := "4"
    layer_count := some 1
    architecture := some "llama"
    quantization := none
    compat := CompatInfo.mk (some "llama") (some 4) (some 1) none none none none
      [TensorMeta.mk "w" [2, 2] "F32"]
    color := "#FF6B35"
    is_dir := false }

/-- Witness for C8: a full 5-parent registry rejects a 6th parent unchanged,
and a 1-parent registry rejects an add into its occupied slot 0 unchanged. -/
theorem registry_add_rejects_full_and_occupied_witness :
    ((ParentRegistry.mk ((List.range 5).map sampleParent)).add sampleModelInfo 5 false "f0").1
        = .error "Maximum 5 parents allowed" ∧
      ((ParentRegistry.mk ((List.range 5).map sampleParent)).add sampleModelInfo 5 false "f0").2
        = ParentRegistry.mk ((List.range 5).map sampleParent) ∧
      (∃ e, ((ParentRegistry.mk [sampleParent 0]).add sampleModelInfo 0 false "f1").1 = .error e) ∧
      ((ParentRegistry.mk [sampleParent 0]).add sampleModelInfo 0 false "f1").2
        = ParentRegistry.mk [sampleParent 0] := by
  have h1 := (registry_add_rejects_full_and_occupied
    (ParentRegistry.mk ((List.range 5).map sampleParent)) sampleModelInfo 5 false "f0").1
    (by decide)
  have h2 := (registry_add_rejects_full_and_occupied
    (ParentRegistry.mk [sampleParent 0]) sampleModelInfo 0 false "f1").2
    ⟨sampleParent 0, by decide, rfl⟩
  exact ⟨h1.1, h1.2, h2.1, h2.2⟩

/-! Embedding of the planner operation type and the output manifest
precomputation (src-tauri/src/merge/planner.rs and precompute.rs). -/

/-- Mirror of `TensorOperation` (planner.rs, lines 11-34). -/
inductive TensorOperation where
  | copy (tensor_name : String) (parent_id : String)
  | merge (tensor_name : String) (parent_ids : List String) (weights : List ℚ)
  | synthesize (tensor_name : String) (shape : List ℕ) (strategy : String)
  | copyMetadata (parent_id : String)
deriving DecidableEq

/-- Mirror of `OutputTensorInfo` (precompute.rs). -/
structure OutputTensorInfo where
  name : String
  shape : List ℕ
  f32_byte_size : ℕ
  data_offset : ℕ
deriving DecidableEq

/-- Mirror of `OutputManifest` (precompute.rs). -/
structure OutputManifest where
  tensors : List OutputTensorInfo
  total_data_bytes : ℕ
deriving DecidableEq

/-- Mirror of `compute_f32_byte_size` (precompute.rs): element count times 4
bytes per dense f32 element. -/
def compute_f32_byte_size (shape : List ℕ) : ℕ := shape.prod * 4

/-- Loop of `build_output_manifest` (precompute.rs, lines 31-82), carrying
the running `current_offset`; returns the tensor list and the final offset.
For a `merge` operation the Rust code indexes `parent_ids[0]`, which panics
on an empty vector; plans built by the planner never produce one, and the
theorems below quantify over plans that resolve. -/
def manifestLoop (registry : ParentRegistry) :
    List TensorOperation → ℕ → Except MError (List OutputTensorInfo × ℕ)
  | [], offset => .ok ([], offset)
  | op :: rest, offset =>
    match op with
    | .copy tensor_name parent_id =>
      match registry.get parent_id with
      | none => .error (.parentNotFound parent_id)
      | some parent =>
        match parent.compat.tensor_shape tensor_name with
        | none => .error (.mergeError ("Tensor " ++ tensor_name ++ " not found in parent "
            ++ parent.name))
        | some shape =>
          let byte_size := compute_f32_byte_size shape
          (manifestLoop registry rest (offset + byte_size)).map
            (fun r => (OutputTensorInfo.mk tensor_name shape byte_size offset :: r.1, r.2))
    | .merge tensor_name parent_ids _ =>
      match registry.get (parent_ids.headD "") with
      | none => .error (.parentNotFound (parent_ids.headD ""))
      | some parent =>
        match parent.compat.tensor_shape tensor_name with
        | none => .error (.mergeError ("Tensor " ++ tensor_name ++ " not found in parent "
            ++ parent.name))
        | some shape =>
          let byte_size := compute_f32_byte_size shape
          (manifestLoop registry rest (offset + byte_size)).map
            (fun r => (OutputTensorInfo.mk tensor_name shape byte_size offset :: r.1, r.2))
    | .synthesize tensor_name shape _ =>
      let byte_size := compute_f32_byte_size shape
      (manifestLoop registry rest (offset + byte_size)).map
        (fun r => (OutputTensorInfo.mk tensor_name shape byte_size offset :: r.1, r.2))
    | .copyMetadata _ => manifestLoop registry rest offset

/-- Embedding of `build_output_manifest` (precompute.rs, lines 24-88). -/
def build_output_manifest (operations : List TensorOperation)
    (registry : ParentRegistry) : Except MError OutputManifest :=
  (manifestLoop registry operations 0).map (fun r => OutputManifest.mk r.1 r.2)

/-- Offsets of a manifest tensor list are consecutive starting at `off` and
end at `fin`: each entry sits at the running offset, which then advances by
the entry's byte size. -/
def ChainOffsets : ℕ → List OutputTensorInfo → ℕ → Prop
  | off, [], fin => fin = off
  | off, t :: rest, fin => t.data_offset = off ∧ ChainOffsets (off + t.f32_byte_size) rest fin

theorem manifestLoop_chain (registry : ParentRegistry) (ops : List TensorOperation)
    (off : ℕ) (tl : List OutputTensorInfo) (fin : ℕ)
    (h : manifestLoop registry ops off = .ok (tl, fin)) : ChainOffsets off tl fin := by
  induction ops generalizing off tl fin with
  | nil =>
    simp only [manifestLoop] at h
    cases h
    exact rfl
  | cons op rest ih =>
    match op with
    | .copy tensor_name parent_id =>
      simp only [manifestLoop] at h
      split at h
      · cases h
      · split at h
        · cases h
        · rename_i shape hshape
          cases hrec : manifestLoop registry rest (off + compute_f32_byte_size shape) with
          | error e => rw [hrec] at h; cases h
          | ok r =>
            rw [hrec] at h
            simp only [Except.map] at h
            cases h
            exact ⟨rfl, ih _ _ _ hrec⟩
    | .merge tensor_name parent_ids weights =>
      simp only [manifestLoop] at h
      split at h
      · cases h
      · split at h
        · cases h
        · rename_i shape hshape
          cases hrec : manifestLoop registry rest (off + compute_f32_byte_size shape) with
          | error e => rw [hrec] at h; cases h
          | ok r =>
            rw [hrec] at h
            simp only [Except.map] at h
            cases h
            exact ⟨rfl, ih _ _ _ hrec⟩
    | .synthesize tensor_name shape strategy =>
      simp only [manifestLoop] at h
      cases hrec : manifestLoop registry rest (off + compute_f32_byte_size shape) with
      | error e => rw [hrec] at h; cases h
      | ok r =>
        rw [hrec] at h
        simp only [Except.map] at h
        cases h
        exact ⟨rfl, ih _ _ _ hrec⟩
    | .copyMetadata parent_id =>
      simp only [manifestLoop] at h
      exact ih _ _ _ h

theorem chainOffsets_sum (tl : List OutputTensorInfo) (off fin : ℕ)
    (h : ChainOffsets off tl fin) :
    fin = off + (tl.map (fun t => t.f32_byte_size)).sum := by
  induction tl generalizing off with
  | nil => simpa [ChainOffsets] using h
  | cons t rest ih =>
    obtain ⟨h1, h2⟩ := h
    have := ih _ h2
    simp only [List.map_cons, List.sum_cons]
    omega

theorem chainOffsets_lower (tl : List OutputTensorInfo) (off fin : ℕ)
    (h : ChainOffsets off tl fin) : ∀ t ∈ tl, off ≤ t.data_offset := by
  induction tl generalizing off with
  | nil => intro t ht; cases ht
  | cons u rest ih =>
    obtain ⟨h1, h2⟩ := h
    intro t ht
    rcases List.mem_cons.mp ht with h | h
    · subst h; omega
    · have := ih _ h2 t h
      omega

theorem chainOffsets_pairwise (tl : List OutputTensorInfo) (off fin : ℕ)
    (h : ChainOffsets off tl fin) :
    tl.Pairwise (fun a b => a.data_offset + a.f32_byte_size ≤ b.data_offset) := by
  induction tl generalizing off with
  | nil => exact List.Pairwise.nil
  | cons t rest ih =>
    obtain ⟨h1, h2⟩ := h
    refine List.Pairwise.cons ?_ (ih _ h2)
    intro b hb
    have := chainOffsets_lower rest _ _ h2 b hb
    omega

theorem chainOffsets_consecutive (tl : List OutputTensorInfo) (off fin : ℕ)
    (h : ChainOffsets off tl fin) :
    ∀ i (h1 : i + 1 < tl.length),
      (tl.get ⟨i + 1, h1⟩).data_offset =
        (tl.get ⟨i, by omega⟩).data_offset + (tl.get ⟨i, by omega⟩).f32_byte_size := by
  induction tl generalizing off with
  | nil => intro i h1; simp at h1
  | cons t rest ih =>
    obtain ⟨hoff, h2⟩ := h
    intro i h1
    match i with
    | 0 =>
      match rest, h2 with
      | u :: rest2, h2 =>
        have hu : u.data_offset = off + t.f32_byte_size := h2.1
        simp [hu, hoff]
    | j + 1 =>
      have hlen : j + 1 < rest.length := by
        simp only [List.length_cons] at h1; omega
      have := ih _ h2 j hlen
      simpa using this

/-- Counterexample for C4 as stated: a resolving plan of two zero-element
tensors (shape `[0]`, hence byte size 0) yields data offsets `[0, 0]`, which
are not strictly increasing. -/
theorem build_output_manifest_offsets_not_strictly_increasing :
    (build_output_manifest [.synthesize "a" [0] "zero_init", .synthesize "b" [0] "zero_init"]
        (ParentRegistry.mk [])).map (fun m => m.tensors.map (fun t => t.data_offset)) =
      .ok [0, 0] ∧
    ¬ ([0, 0] : List ℕ).Pairwise (· < ·) := by
  constructor
  · rfl
  · decide

/-- Claim C4, amended: for every plan that resolves against the registry,
`build_output_manifest` gives the first tensor offset 0 and each subsequent
tensor the previous offset plus the previous 4-byte-per-element size, byte
ranges never overlap, sizes sum to `total_data_bytes`, the result is uniquely
determined by plan and registry, and — provided every planned tensor has a
positive byte size (the amendment: a zero-element tensor repeats the previous
offset) — the offsets are strictly increasing. -/
theorem build_output_manifest_spec (ops : List TensorOperation)
    (registry : ParentRegistry) (m : OutputManifest)
    (h : build_output_manifest ops registry = .ok m) :
    (∀ t0, m.tensors.head? = some t0 → t0.data_offset = 0) ∧
    (∀ i (h1 : i + 1 < m.tensors.length),
      (m.tensors.get ⟨i + 1, h1⟩).data_offset =
        (m.tensors.get ⟨i, by omega⟩).data_offset +
          (m.tensors.get ⟨i, by omega⟩).f32_byte_size) ∧
    (m.tensors.map (fun t => t.f32_byte_size)).sum = m.total_data_bytes ∧
    m.tensors.Pairwise (fun a b => a.data_offset + a.f32_byte_size ≤ b.data_offset) ∧
    ((∀ t ∈ m.tensors, 0 < t.f32_byte_size) →
      (m.tensors.map (fun t => t.data_offset)).Pairwise (· < ·)) ∧
    (∀ m2, build_output_manifest ops registry = .ok m2 → m2 = m) := by
  have hloop : manifestLoop registry ops 0 = .ok (m.tensors, m.total_data_bytes) := by
    unfold build_output_manifest at h
    cases hrec : manifestLoop registry ops 0 with
    | error e => rw [hrec] at h; cases h
    | ok r =>
      rw [hrec] at h
      simp only [Except.map] at h
      cases h
      rfl
  have hchain := manifestLoop_chain registry ops 0 m.tensors m.total_data_bytes hloop
  refine ⟨?_, ?_, ?_, ?_, ?_, ?_⟩
  · intro t0 ht0
    match m.tensors, hchain, ht0 with
    | t :: rest, hchain, ht0 =>
      cases ht0
      exact hchain.1
  · exact chainOffsets_consecutive m.tensors 0 m.total_data_bytes hchain
  · have := chainOffsets_sum m.tensors 0 m.total_data_bytes hchain
    omega
  · exact chainOffsets_pairwise m.tensors 0 m.total_data_bytes hchain
  · intro hpos
    have hpw := chainOffsets_pairwise m.tensors 0 m.total_data_bytes hchain
    rw [List.pairwise_map]
    refine hpw.imp_of_mem ?_
    intro a b ha hb hle
    have := hpos a ha
    omega
  · intro m2 h2
    rw [h] at h2
    cases h2
    rfl

/-- Witness for C4 at a concrete one-tensor plan. -/
theorem build_output_manifest_spec_witness :
    ((OutputManifest.mk [OutputTensorInfo.mk "a" [1] 4 0] 4).tensors.map
        (fun t => t.f32_byte_size)).sum =
      (OutputManifest.mk [OutputTensorInfo.mk "a" [1] 4 0] 4).total_data_bytes :=
  (build_output_manifest_spec [.synthesize "a" [1] "zero_init"] (ParentRegistry.mk [])
    (OutputManifest.mk [OutputTensorInfo.mk "a" [1] 4 0] 4) rfl).2.2.1

/-! Embedding of the GGUF tensor-entry dispatch and the GGML dequantization
fallback (src-tauri/src/merge/tensor_io.rs, lines 161-496). -/

/-- Mirror of `GgufTensorEntry` (tensor_io.rs). -/
structure GgufTensorEntry where
  shape : List ℕ
  ggml_type : ℕ
  offset : ℕ
deriving DecidableEq

/-- Mirror of `ggml_block_size` (tensor_io.rs, lines 456-475); the Rust
`match` over `u32` becomes an if-chain with the same wildcard default. -/
def ggml_block_size (ggml_type : ℕ) : ℕ :=
  if ggml_type = 0 then 1
  else if ggml_type = 1 then 1
  else if ggml_type = 2 then 32
  else if ggml_type = 3 then 32
  else if ggml_type = 6 then 32
  else if ggml_type = 7 then 32
  else if ggml_type = 8 then 32
  else if ggml_type = 9 then 32
  else if ggml_type = 10 then 256
  else if ggml_type = 11 then 256
  else if ggml_type = 12 then 256
  else if ggml_type = 13 then 256
  else if ggml_type = 14 then 256
  else if ggml_type = 15 then 256
  else if ggml_type = 30 then 1
  else 32

/-- Mirror of `ggml_type_size` (tensor_io.rs, lines 477-496). -/
def ggml_type_size (ggml_type : ℕ) : ℕ :=
  if ggml_type = 0 then 4
  else if ggml_type = 1 then 2
  else if ggml_type = 2 then 18
  else if ggml_type = 3 then 20
  else if ggml_type = 6 then 22
  else if ggml_type = 7 then 24
  else if ggml_type = 8 then 34
  else if ggml_type = 9 then 36
  else if ggml_type = 10 then 84
  else if ggml_type = 11 then 110
  else if ggml_type = 12 then 144
  else if ggml_type = 13 then 176
  else if ggml_type = 14 then 210
  else if ggml_type = 15 then 292
  else if ggml_type = 30 then 2
  else 18

/-- Dense F32 tensor as produced by `Tensor::from_vec(data, shape, ..)`:
the declared shape together with the flat element buffer. -/
structure TensorV where
  shape : List ℕ
  data : List ℚ
deriving DecidableEq

/-- Mirror of `dequantize_ggml_tensor` (tensor_io.rs, lines 407-454): block
and type sizes from the tables above, a bounds check of the declared data
range against the file, explicit decoders for Q4_0 / Q4_1 / Q8_0
(GGML types 2, 3, 8) and a zero-filled buffer for every other type.
`Tensor::from_vec` fails when the buffer length disagrees with the shape
product, which the final guard mirrors. -/
def dequantize_ggml_tensor (mmap : List ℕ) (entry : GgufTensorEntry)
    (data_start : ℕ) : Except MError TensorV :=
  let elem_count := entry.shape.prod
  let block_size := ggml_block_size entry.ggml_type
  let type_size := ggml_type_size entry.ggml_type
  if block_size = 0 then
    .error (.candleError "Unsupported GGML type for dequantization")
  else
    let num_blocks := (elem_count + block_size - 1) / block_size
    let byte_count := num_blocks * type_size
    if mmap.length < data_start + byte_count then
      .error (.parseError "GGUF" "Tensor data extends past file end")
    else
      let raw_bytes := (mmap.drop data_start).take byte_count
      let f32_data :=
        if entry.ggml_type = 2 then dequantize_q4_0 raw_bytes elem_count
        else if entry.ggml_type = 3 then dequantize_q4_1 raw_bytes elem_count
        else if entry.ggml_type = 8 then dequantize_q8_0 raw_bytes elem_count
        else List.replicate elem_count (0 : ℚ)
      if f32_data.length = elem_count then .ok (TensorV.mk entry.shape f32_data)
      else .error (.candleError "from_vec length mismatch")

theorem ite_ne_zero_of_ne (c : Prop) [Decidable c] (a b : ℕ) (ha : a ≠ 0) (hb : b ≠ 0) :
    (if c then a else b) ≠ 0 := by
  by_cases hc : c
  · rwa [if_pos hc]
  · rwa [if_neg hc]

/-- Claim C9: for a GGUF tensor whose GGML type has no explicit decoder
(any type other than F32 = 0, F16 = 1, BF16 = 30, Q4_0 = 2, Q4_1 = 3,
Q8_0 = 8), with the declared data range inside the file, the dequantization
step of `load_gguf_tensor` succeeds and returns a tensor of the declared
shape whose elements are all zero — no error and no flag to the caller. -/
theorem dequantize_ggml_tensor_zero_fallback (mmap : List ℕ)
    (entry : GgufTensorEntry) (data_start : ℕ)
    (ht0 : entry.ggml_type ≠ 0) (ht1 : entry.ggml_type ≠ 1)
    (ht2 : entry.ggml_type ≠ 2) (ht3 : entry.ggml_type ≠ 3)
    (ht8 : entry.ggml_type ≠ 8) (ht30 : entry.ggml_type ≠ 30)
    (hrange : data_start +
        ((entry.shape.prod + ggml_block_size entry.ggml_type - 1) /
            ggml_block_size entry.ggml_type) * ggml_type_size entry.ggml_type ≤
      mmap.length) :
    dequantize_ggml_tensor mmap entry data_start =
      .ok (TensorV.mk entry.shape (List.replicate entry.shape.prod 0)) := by
  have hbs : ggml_block_size entry.ggml_type ≠ 0 := by
    unfold ggml_block_size
    repeat' apply ite_ne_zero_of_ne
    all_goals norm_num
  simp only [dequantize_ggml_tensor]
  rw [if_neg hbs, if_neg (not_lt.mpr hrange), if_neg ht2, if_neg ht3, if_neg ht8,
    if_pos (List.length_replicate _ _)]

set_option maxRecDepth 10000 in
/-- Witness for C9: GGML type 12 (Q4_K), one 256-element block of 144 bytes
inside a sufficiently large file. -/
theorem dequantize_ggml_tensor_zero_fallback_witness :
    dequantize_ggml_tensor (List.replicate 144 0) (GgufTensorEntry.mk [16, 16] 12 0) 0 =
      .ok (TensorV.mk [16, 16] (List.replicate 256 0)) :=
  dequantize_ggml_tensor_zero_fallback (List.replicate 144 0)
    (GgufTensorEntry.mk [16, 16] 12 0) 0
    (by decide) (by decide) (by decide) (by decide) (by decide) (by decide) (by decide)

/-! Embedding of the merge configuration (src-tauri/src/merge/config.rs). -/

/-- Mirror of `MergeMethod` (config.rs). -/
inductive MergeMethod where
  | average
  | slerp
  | taskArithmetic
  | frankenmerge
  | dare
  | ties
  | della
  | passthrough
  | componentMerge
  | tensorSurgery
  | parameterSlice
  | moeConversion
deriving DecidableEq

/-- Mirror of `OutputFormat` (config.rs). -/
inductive OutputFormat where
  | safeTensors
  | gguf
deriving DecidableEq

/-- Mirror of `OutputConfig` (config.rs). -/
structure OutputConfig where
  format : OutputFormat
  path : String
  model_name : String
deriving DecidableEq

/-- Mirror of `ParentWeight` (config.rs). -/
structure ParentWeight where
  parent_id : String
  weight : ℚ
deriving DecidableEq

/-- Mirror of `LayerAssignment` (config.rs). -/
structure LayerAssignment where
  layer_index : ℕ
  source_parent_id : String
deriving DecidableEq

/-- Mirror of `ComponentType` (config.rs). -/
inductive ComponentType where
  | attention
  | mlp
  | norm
deriving DecidableEq

/-- Mirror of `ComponentOverride` (config.rs). -/
structure ComponentOverride where
  component : ComponentType
  parent_id : String
  layer_start : ℕ
  layer_end : ℕ
deriving DecidableEq

/-- Mirror of `TensorOverride` (config.rs). -/
structure TensorOverride where
  tensor_name : String
  parent_id : String
deriving DecidableEq

/-- Mirror of `MethodParams` (config.rs); floating parameters are exact
rationals. -/
structure MethodParams where
  t : Option ℚ
  scaling : Option ℚ
  density : Option ℚ
  majority_sign_method : Option String
  trim_threshold : Option ℚ
  lambda : Option ℚ
  della_density : Option ℚ
  num_experts : Option ℕ
  experts_per_token : Option ℕ
  slice_dim : Option ℕ
  slice_ranges : Option (List (ℕ × ℕ))
deriving DecidableEq

/-- Mirror of `MethodParams::default` (config.rs). -/
def MethodParams.defaults : MethodParams :=
  MethodParams.mk none none none none none none none none none none none

/-- Mirror of `MergeConfig` (config.rs). -/
structure MergeConfig where
  parents : List ParentWeight
  method : MergeMethod
  params : MethodParams
  base_parent_id : Option String
  layer_assignments : List LayerAssignment
  component_overrides : List ComponentOverride
  tensor_overrides : List TensorOverride
  output : OutputConfig
  memory_limit_mb : Option ℕ
  projection_strategy : Option String
  skip_layers : List ℕ
  batch_size : ℕ
deriving DecidableEq

/-- The `requires_base` answer of the strategy object selected by
`methods::get_strategy` for each method (methods/mod.rs together with the
`requires_base` implementations in methods/*.rs: true exactly for
TaskArithmetic, Dare, Ties and Della). -/
def strategyRequiresBase (m : MergeMethod) : Bool :=
  match m with
  | .taskArithmetic => true
  | .dare => true
  | .ties => true
  | .della => true
  | _ => false

/-- Mirror of the executor's base-parent resolution (executor.rs, line 102):
`config.base_parent_id.as_ref().and_then(|id| registry.get(id))`. -/
def resolveBaseParent (config : MergeConfig) (registry : ParentRegistry) :
    Option ParentModel :=
  config.base_parent_id.bind (fun id => registry.get id)

/-- Mirror of the executor's base-tensor selection for one Merge operation
(executor.rs, lines 228-238).  `load` stands for
`tensor_io::load_tensor(bp, tensor_name)` applied to the already-resolved
base parent; tensor data is the exact rational buffer. -/
def chooseBaseTensor (requiresBase : Bool) (base_parent : Option ParentModel)
    (load : ParentModel → List ℚ) (parent_tensors : List (List ℚ × ℚ)) :
    Option (List ℚ) :=
  if requiresBase then
    match base_parent with
    | some bp => some (load bp)
    | none =>
      match parent_tensors with
      | p :: _ => some p.1
      | [] => none
  else none

/-- Embedding of `TaskArithmeticMerge::merge`
(src-tauri/src/merge/methods/task_arithmetic.rs, lines 11-41): requires a
base, normalises weights by their sum when positive (and by 1 otherwise),
accumulates the weighted task vectors `tensor - base` into a zero buffer,
scales by `scaling` (default 1.0) and adds the base. -/
def taskArithmeticMerge (tensors : List (List ℚ × ℚ)) (params : MethodParams)
    (base_tensor : Option (List ℚ)) : Except MError (List ℚ) :=
  match base_tensor with
  | none => .error (.mergeError "Task Arithmetic requires a base model")
  | some base =>
    let scaling := params.scaling.getD 1
    let total_weight := totalWeight tensors
    let norm := if 0 < total_weight then total_weight else 1
    let task_vector_sum := tensors.foldl
      (fun acc p => vadd acc (vscale (p.2 / norm) (vsub p.1 base)))
      (vzero base.length)
    .ok (vadd base (vscale scaling task_vector_sum))

theorem vsub_self_zero (v : List ℚ) : vsub v v = vzero v.length := by
  induction v with
  | nil => rfl
  | cons x rest ih =>
    simp only [vsub, List.zipWith_cons_cons, sub_self, vzero, List.length_cons,
      List.replicate_succ]
    exact congrArg (List.cons 0) ih

theorem vscale_zero (c : ℚ) (n : ℕ) : vscale c (vzero n) = vzero n := by
  induction n with
  | zero => rfl
  | succ n ih =>
    simp only [vzero, vscale, List.replicate_succ, List.map_cons, mul_zero] at ih ⊢
    exact congrArg (List.cons 0) ih

theorem vadd_zero_zero (n : ℕ) : vadd (vzero n) (vzero n) = vzero n := by
  induction n with
  | zero => rfl
  | succ n ih =>
    simp only [vzero, vadd, List.replicate_succ, List.zipWith_cons_cons, add_zero] at ih ⊢
    exact congrArg (List.cons 0) ih

/-- Claim C10: when the configured method requires a base tensor but
`config.base_parent_id` is absent or does not resolve in the registry
snapshot, the executor does not fail the Merge operation: it substitutes the
first loaded parent tensor as the base, so Task Arithmetic's task vector for
the first parent — and hence the first loop step — is identically zero, and
the merge reduces to the fold over the remaining parents. -/
theorem executor_base_fallback_first_parent (config : MergeConfig)
    (registry : ParentRegistry) (load : ParentModel → List ℚ)
    (t0 : List ℚ) (w0 : ℚ) (rest : List (List ℚ × ℚ))
    (hmethod : config.method = .taskArithmetic)
    (hbase : resolveBaseParent config registry = none) :
    chooseBaseTensor (strategyRequiresBase config.method)
        (resolveBaseParent config registry) load ((t0, w0) :: rest) = some t0 ∧
    vsub t0 t0 = vzero t0.length ∧
    taskArithmeticMerge ((t0, w0) :: rest) config.params (some t0) =
      .ok (vadd t0 (vscale (config.params.scaling.getD 1)
        (rest.foldl
          (fun acc p => vadd acc (vscale
            (p.2 / (if 0 < totalWeight ((t0, w0) :: rest)
                    then totalWeight ((t0, w0) :: rest) else 1)) (vsub p.1 t0)))
          (vzero t0.length)))) := by
  refine ⟨?_, vsub_self_zero t0, ?_⟩
  · rw [hmethod, hbase]
    rfl
  · simp only [taskArithmeticMerge, List.foldl_cons]
    congr 2
    rw [vsub_self_zero, vscale_zero, vadd_zero_zero]

/-- Witness for C10 at a concrete configuration with a dangling base parent
id, two parents and scaling 2. -/
theorem executor_base_fallback_first_parent_witness :
    chooseBaseTensor
        (strategyRequiresBase
          (MergeConfig.mk [ParentWeight.mk "pa" 1, ParentWeight.mk "pb" 1]
            .taskArithmetic
            { MethodParams.defaults with scaling := some 2 }
            (some "missing") [] [] []
            (OutputConfig.mk .safeTensors "out" "m") none none [] 1).method)
        (resolveBaseParent
          (MergeConfig.mk [ParentWeight.mk "pa" 1, ParentWeight.mk "pb" 1]
            .taskArithmetic
            { MethodParams.defaults with scaling := some 2 }
            (some "missing") [] [] []
            (OutputConfig.mk .safeTensors "out" "m") none none [] 1)
          (ParentRegistry.mk []))
        (fun _ => [0, 0]) [([1, 2], 1), ([3, 6], 1)] = some [1, 2] ∧
    vsub [1, 2] [1, 2] = vzero 2 := by
  have h := executor_base_fallback_first_parent
    (MergeConfig.mk [ParentWeight.mk "pa" 1, ParentWeight.mk "pb" 1]
      .taskArithmetic
      { MethodParams.defaults with scaling := some 2 }
      (some "missing") [] [] []
      (OutputConfig.mk .safeTensors "out" "m") none none [] 1)
    (ParentRegistry.mk []) (fun _ => [0, 0]) [1, 2] 1 [([3, 6], 1)]
    rfl rfl
  exact ⟨h.1, h.2.1⟩

/-! Embedding of the tensor-name classification helpers
(src-tauri/src/model/inspect.rs, lines 70-161) and of the planner
(src-tauri/src/merge/planner.rs). -/

/-- ASCII lowering of one character; Rust `str::to_lowercase` restricted to
the ASCII range, which covers tensor names. -/
def charLower (c : Char) : Char :=
  if 65 ≤ c.toNat ∧ c.toNat ≤ 90 then Char.ofNat (c.toNat + 32) else c

/-- Rust `str::to_lowercase` (ASCII range). -/
def strToLower (s : String) : String := String.mk (s.toList.map charLower)

/-- Rust `str::starts_with(pattern)`. -/
def strStartsWith (s pat : String) : Bool := pat.toList.isPrefixOf s.toList

/-- Rust `str::contains(pattern)`: the pattern occurs somewhere in the
string.  Tensor names are ASCII, so byte positions and character positions
coincide. -/
def containsSub (pat : List Char) : List Char → Bool
  | [] => pat.isEmpty
  | c :: rest => pat.isPrefixOf (c :: rest) || containsSub pat rest

/-- String wrapper for `containsSub`. -/
def strContains (s pat : String) : Bool := containsSub pat.toList s.toList

/-- Rust `str::find(pattern)`: index of the first occurrence. -/
def findSubIdx (pat : List Char) : List Char → Option ℕ
  | [] => if pat.isEmpty then some 0 else none
  | c :: rest =>
    if pat.isPrefixOf (c :: rest) then some 0
    else (findSubIdx pat rest).map (fun i => i + 1)

/-- Rust `str::parse::<u64>().ok()` on a slice: all-digit, non-empty. -/
def parseNatDigits (cs : List Char) : Option ℕ :=
  if cs ≠ [] ∧ cs.all (fun c => c.isDigit) then
    some (cs.foldl (fun a c => a * 10 + (c.toNat - 48)) 0)
  else none

/-- Embedding of `classify_tensor` (model/inspect.rs, lines 70-143).  The
no-op `if` block at lines 82-89 of the source (empty body, commentary only)
is omitted.  Returns the component tag used by the planner. -/
def classify_tensor (name : String) : String :=
  let lower := strToLower name
  if strContains lower "token_embd" || strContains lower "embed_tokens"
      || strContains lower "wte" || strContains lower "word_embedding" then
    "embedding"
  else if lower == "output.weight" || strContains lower "lm_head"
      || strContains lower "output_norm"
      || (strStartsWith lower "output." && !(strContains lower "attn")) then
    "output"
  else if strContains lower "attn_q" || strContains lower "attn_k"
      || strContains lower "attn_v" || strContains lower "attn_output"
      || strContains lower "q_proj" || strContains lower "k_proj"
      || strContains lower "v_proj" || strContains lower "o_proj"
      || strContains lower "self_attn" || strContains lower "qkv_proj"
      || strContains lower "attn.c_attn" || strContains lower "attn.c_proj" then
    "attention"
  else if strContains lower "norm" || strContains lower "layernorm"
      || strContains lower "ln_" || strContains lower "layer_norm"
      || strContains lower "rms_norm" || strContains lower "input_layernorm"
      || strContains lower "post_attention_layernorm" then
    "norm"
  else if strContains lower "ffn_" || strContains lower "mlp"
      || strContains lower "gate_proj" || strContains lower "up_proj"
      || strContains lower "down_proj" || strContains lower "fc1"
      || strContains lower "fc2" || strContains lower "c_fc"
      || strContains lower "c_proj" || strContains lower "feed_forward" then
    "mlp"
  else "other"

/-- Embedding of `extract_layer_index` (model/inspect.rs, lines 146-161):
for each pattern in order, find its first occurrence, take the characters up
to the next dot (or to the end) and parse them; the first pattern that
yields a number wins. -/
def extract_layer_index (name : String) : Option ℕ :=
  let chars := name.toList
  (["blk.", "layers.", "blocks.", "h.", "layer."] : List String).findSome?
    (fun pat =>
      match findSubIdx pat.toList chars with
      | none => none
      | some pos =>
        let after := chars.drop (pos + pat.toList.length)
        match findSubIdx ['.'] after with
        | some stop => parseNatDigits (after.take stop)
        | none => parseNatDigits after)

/-- Lookup in a `HashMap` built by `collect()` from an iterator: for
duplicate keys the later entry wins, so the reversed association list is
searched front to back. -/
def hashMapGet {α β : Type} [BEq α] (pairs : List (α × β)) (k : α) : Option β :=
  (pairs.reverse.find? (fun p => p.1 == k)).map (fun p => p.2)

/-- Mirror of `TensorMergePlan` (planner.rs). -/
structure TensorMergePlan where
  operations : List TensorOperation
  total_tensors : ℕ
  method : MergeMethod
  estimated_output_bytes : ℕ
deriving DecidableEq

/-- Component-override match condition inside `build_plan`
(planner.rs, lines 117-126): the tensor's layer index lies in the override's
range and the override's component tag agrees with the classified tag. -/
def componentMatches (c : ComponentType) (component : String) : Bool :=
  match c, component with
  | .attention, "attention" => true
  | .mlp, "mlp" => true
  | .norm, "norm" => true
  | _, _ => false

/-- Operations emitted by one iteration of the planner's per-tensor loop
(planner.rs, lines 102-204), in priority order: exact tensor-name override,
component override, per-layer assignment, then the method default
(layer-copy, MoE fan-out, shared merge, or verbatim copy). -/
def planOpsFor (config : MergeConfig) (shared : List String)
    (all_parents : List ParentModel) (primary : ParentModel)
    (tensor_name : String) : List TensorOperation :=
  match hashMapGet (config.tensor_overrides.map
      (fun o => (o.tensor_name, o.parent_id))) tensor_name with
  | some source_id => [.copy tensor_name source_id]
  | none =>
    let component := classify_tensor tensor_name
    let layer_idx := extract_layer_index tensor_name
    let priority23 : Option TensorOperation :=
      match layer_idx with
      | none => none
      | some idx =>
        match config.component_overrides.find? (fun co =>
            decide (co.layer_start ≤ idx) && decide (idx ≤ co.layer_end)
              && componentMatches co.component component) with
        | some co => some (.copy tensor_name co.parent_id)
        | none =>
          match hashMapGet (config.layer_assignments.map
              (fun la => (la.layer_index, la.source_parent_id))) idx with
          | some source_id => some (.copy tensor_name source_id)
          | none => none
    match priority23 with
    | some op => [op]
    | none =>
      let is_layer_copy :=
        config.method = .frankenmerge ∨ config.method = .passthrough
      if is_layer_copy then
        [.copy tensor_name primary.id]
      else if config.method = .moeConversion then
        if component = "mlp" then
          (all_parents.enum.map (fun ip =>
            TensorOperation.copy
              (tensor_name.replace "mlp" ("experts." ++ toString ip.1 ++ ".mlp"))
              ip.2.id)) ++
          (if strContains tensor_name "gate_proj" || strContains tensor_name "ffn_gate" then
            [.synthesize
              ((tensor_name.replace "gate_proj" "router.weight").replace
                "ffn_gate" "router.weight")
              [all_parents.length, 1] "random_init"]
          else [])
        else if shared.contains tensor_name then
          [.merge tensor_name (config.parents.map (fun p => p.parent_id))
            (config.parents.map (fun p => p.weight))]
        else
          [.copy tensor_name primary.id]
      else if shared.contains tensor_name then
        [.merge tensor_name (config.parents.map (fun p => p.parent_id))
          (config.parents.map (fun p => p.weight))]
      else
        [.copy tensor_name primary.id]

/-- Embedding of `build_plan` (planner.rs, lines 62-226).  The Rust loop
iterates the primary (first-slot) parent's tensor-name list, appending the
per-tensor operations, then a trailing metadata-copy entry naming the base
parent (or the primary parent). -/
def build_plan (config : MergeConfig) (registry : ParentRegistry) :
    Except MError TensorMergePlan :=
  match registry.parents with
  | [] => .error (.mergeError "No parents loaded")
  | primary :: _ =>
    let shared := registry.shared_tensor_names
    let tensor_names := primary.compat.tensor_names
    let ops := tensor_names.flatMap
      (planOpsFor config shared registry.parents primary)
    let metadata_source := config.base_parent_id.getD primary.id
    let operations := ops ++ [.copyMetadata metadata_source]
    .ok (TensorMergePlan.mk operations operations.length config.method
      primary.file_size)

theorem build_plan_eq (config : MergeConfig) (registry : ParentRegistry)
    (primary : ParentModel) (restP : List ParentModel)
    (h : registry.parents = primary :: restP) :
    build_plan config registry = .ok (TensorMergePlan.mk
      ((primary.compat.tensor_names.flatMap
          (planOpsFor config registry.shared_tensor_names registry.parents primary))
        ++ [TensorOperation.copyMetadata (config.base_parent_id.getD primary.id)])
      (((primary.compat.tensor_names.flatMap
          (planOpsFor config registry.shared_tensor_names registry.parents primary))
        ++ [TensorOperation.copyMetadata (config.base_parent_id.getD primary.id)]).length)
      config.method primary.file_size) := by
  unfold build_plan
  rw [h]

/-- Claim C3: when a tensor X of the primary (first-slot) parent has an
applicable exact tensor-name override, an applicable component override
(matching component tag and containing layer range) and an applicable
per-layer assignment all at once, `build_plan` emits for X a Copy operation
whose source parent is the tensor-override's parent — the exact override has
the highest priority. -/
theorem build_plan_tensor_override_priority (config : MergeConfig)
    (registry : ParentRegistry) (primary : ParentModel)
    (restP : List ParentModel) (X pid sid : String) (idx : ℕ)
    (co : ComponentOverride)
    (hreg : registry.parents = primary :: restP)
    (hX : X ∈ primary.compat.tensor_names)
    (hov : hashMapGet (config.tensor_overrides.map
      (fun o => (o.tensor_name, o.parent_id))) X = some pid)
    (hidx : extract_layer_index X = some idx)
    (hco : co ∈ config.component_overrides)
    (hco1 : co.layer_start ≤ idx) (hco2 : idx ≤ co.layer_end)
    (hco3 : componentMatches co.component (classify_tensor X) = true)
    (hla : hashMapGet (config.layer_assignments.map
      (fun la => (la.layer_index, la.source_parent_id))) idx = some sid) :
    ∃ plan, build_plan config registry = .ok plan ∧
      TensorOperation.copy X pid ∈ plan.operations := by
  refine ⟨_, build_plan_eq config registry primary restP hreg, ?_⟩
  apply List.mem_append_left
  rw [List.mem_flatMap]
  refine ⟨X, hX, ?_⟩
  simp only [planOpsFor, hov]
  exact List.mem_singleton.mpr rfl

/-- Primary parent used by the planner-priority witness. -/
def c3Primary : ParentModel :=
  { sampleParent 0 with
    id := "pa"
    compat := CompatInfo.mk none none none none none none none
      [TensorMeta.mk "model.layers.0.self_attn.q_proj.weight" [2, 2] "F32"] }

/-- Configuration used by the planner-priority witness: a tensor override to
parent pb, an attention component override for layers 0-3 to parent pc, and
a layer-0 assignment to parent pd. -/
def c3Config : MergeConfig :=
  MergeConfig.mk [ParentWeight.mk "pa" 1] .average MethodParams.defaults
    none [LayerAssignment.mk 0 "pd"]
    [ComponentOverride.mk .attention "pc" 0 3]
    [TensorOverride.mk "model.layers.0.self_attn.q_proj.weight" "pb"]
    (OutputConfig.mk .safeTensors "out" "m") none none [] 1

/-- Witness for C3: the tensor `model.layers.0.self_attn.q_proj.weight` with
all three override kinds applicable at once; the emitted copy names pb, the
tensor-override parent. -/
theorem build_plan_tensor_override_priority_witness :
    ∃ plan,
      build_plan c3Config (ParentRegistry.mk [c3Primary]) = .ok plan ∧
      TensorOperation.copy "model.layers.0.self_attn.q_proj.weight" "pb" ∈
        plan.operations := by
  apply build_plan_tensor_override_priority c3Config (ParentRegistry.mk [c3Primary])
    c3Primary [] "model.layers.0.self_attn.q_proj.weight" "pb" "pd" 0
    (ComponentOverride.mk .attention "pc" 0 3)
  · rfl
  · decide
  · rfl
  · rfl
  · decide
  · decide
  · decide
  · decide
  · rfl

/-! Embedding of the SafeTensors writer (src-tauri/src/merge/output.rs,
lines 11-81) and of the single-file SafeTensors loader
(src-tauri/src/merge/tensor_io.rs, lines 14-123).  The container is modelled
at the level the two functions agree on: the parsed JSON header — an ordered
list of entries `name -> (dtype, shape, data_offsets)` in which a repeated
name resolves to the last entry, exactly as a `serde_json` object lookup
does — followed by the raw data section.  f32 values are carried as their
32-bit little-endian patterns (naturals below 2^32), so data equality is
byte equality. -/

/-- Rust `f32::to_le_bytes` on a 32-bit pattern. -/
def toLE4 (w : ℕ) : List ℕ :=
  [w % 256, w / 256 % 256, w / 65536 % 256, w / 16777216 % 256]

/-- The writer's per-tensor byte buffer:
`flat.iter().flat_map(|f| f.to_le_bytes())`. -/
def bytesOfWords (ws : List ℕ) : List ℕ := ws.flatMap toLE4

/-- The loader's decode loop: `chunks_exact(4)` with
`f32::from_le_bytes` — a trailing fragment shorter than 4 bytes is
dropped. -/
def wordsOfBytes : List ℕ → List ℕ
  | b0 :: b1 :: b2 :: b3 :: rest =>
    (b0 + 256 * b1 + 65536 * b2 + 16777216 * b3) :: wordsOfBytes rest
  | _ => []

/-- A dense tensor handed to the writer: declared shape plus flattened f32
bit patterns. -/
structure StTensor where
  shape : List ℕ
  words : List ℕ
deriving DecidableEq

/-- One parsed header entry `name -> dtype / shape / data_offsets`. -/
structure StHeaderEntry where
  name : String
  dtype : String
  shape : List ℕ
  off_start : ℕ
  off_end : ℕ
deriving DecidableEq

/-- A SafeTensors file as seen through its parsed header: the entry list in
header order and the raw data section. -/
structure StFile where
  entries : List StHeaderEntry
  data : List ℕ
deriving DecidableEq

/-- Header entries with the writer's running `data_offset`
(output.rs, lines 35-52): each tensor is assigned `[offset, offset + len)`
and the offset advances by the byte length. -/
def stEntries : List (String × List ℕ × List ℕ) → ℕ → List StHeaderEntry
  | [], _ => []
  | (nm, bytes, shape) :: rest, off =>
    StHeaderEntry.mk nm "F32" shape off (off + bytes.length) ::
      stEntries rest (off + bytes.length)

/-- Embedding of `write_safetensors` (output.rs, lines 11-81): every tensor
is converted to F32 little-endian bytes, the header lists the entries in
input order with consecutive data offsets, and the data section is the
concatenation of the per-tensor buffers in the same order. -/
def write_safetensors (tensors : List (String × StTensor)) : StFile :=
  let tensor_data := tensors.map (fun p => (p.1, bytesOfWords p.2.words, p.2.shape))
  StFile.mk (stEntries tensor_data 0) (tensor_data.flatMap (fun x => x.2.1))

/-- Header lookup `header_map.get(tensor_name)`: a `serde_json` object keeps
the last value for a repeated key, so the reversed entry list is searched
front to back. -/
def stLookup (entries : List StHeaderEntry) (name : String) : Option StHeaderEntry :=
  entries.reverse.find? (fun e => e.name == name)

/-- Embedding of `load_safetensors_tensor` (tensor_io.rs, lines 14-123) on
the modelled container, for the F32 dtype the writer emits (the source also
decodes F16/BF16 and integer dtypes, which never occur in a written file):
look the name up in the header, slice the declared byte range out of the
data section, check the size against the shape, and decode little-endian
f32 words; `Tensor::from_vec` fails when the word count disagrees with the
shape product. -/
def load_safetensors_tensor (file : StFile) (tensor_name : String) :
    Except MError (String × List ℕ × List ℕ) :=
  match stLookup file.entries tensor_name with
  | none => .error (.tensorNotFound tensor_name "")
  | some e =>
    if e.dtype == "F32" then
      let tensor_bytes := (file.data.drop e.off_start).take (e.off_end - e.off_start)
      let expected := e.shape.prod * 4
      if tensor_bytes.length < expected then
        .error (.parseError "SafeTensors" "Tensor data too small")
      else
        let words := wordsOfBytes tensor_bytes
        if words.length = e.shape.prod then .ok (e.dtype, e.shape, words)
        else .error (.candleError "from_vec length mismatch")
    else .error (.parseError "SafeTensors" "dtype outside the written container model")

theorem wordsOfBytes_bytesOfWords (ws : List ℕ) (hw : ∀ w ∈ ws, w < 2 ^ 32) :
    wordsOfBytes (bytesOfWords ws) = ws := by
  induction ws with
  | nil => rfl
  | cons w rest ih =>
    have hwlt : w < 2 ^ 32 := hw w (by simp)
    simp only [bytesOfWords, List.flatMap_cons] at ih ⊢
    show wordsOfBytes (w % 256 :: (w / 256 % 256) :: (w / 65536 % 256) ::
      (w / 16777216 % 256) :: rest.flatMap toLE4) = w :: rest
    rw [wordsOfBytes]
    refine congrArg₂ List.cons ?_ (ih (fun x hx => hw x (by simp [hx])))
    omega

theorem bytesOfWords_length (ws : List ℕ) : (bytesOfWords ws).length = 4 * ws.length := by
  induction ws with
  | nil => rfl
  | cons w rest ih =>
    simp only [bytesOfWords, List.flatMap_cons, List.length_append, List.length_cons] at ih ⊢
    simp [toLE4] at ih ⊢
    omega

theorem stEntries_names (td : List (String × List ℕ × List ℕ)) (off : ℕ) :
    (stEntries td off).map (fun e => e.name) = td.map (fun x => x.1) := by
  induction td generalizing off with
  | nil => rfl
  | cons x rest ih =>
    match x with
    | (nm, bytes, shape) =>
      simp only [stEntries, List.map_cons]
      exact congrArg (List.cons nm) (ih _)

theorem st_lookup_slice (td : List (String × List ℕ × List ℕ)) (off : ℕ)
    (pre : List ℕ) (hpre : pre.length = off)
    (hnodup : (td.map (fun x => x.1)).Nodup)
    (nm : String) (bytes shape : List ℕ) (hmem : (nm, bytes, shape) ∈ td) :
    ∃ e, stLookup (stEntries td off) nm = some e ∧
      e.name = nm ∧ e.dtype = "F32" ∧ e.shape = shape ∧
      e.off_end - e.off_start = bytes.length ∧
      ((pre ++ td.flatMap (fun x => x.2.1)).drop e.off_start).take
        (e.off_end - e.off_start) = bytes := by
  induction td generalizing off pre with
  | nil => cases hmem
  | cons x rest ih =>
    match x, hmem with
    | (nm', b', s'), hmem =>
      simp only [List.map_cons, List.nodup_cons] at hnodup
      rcases List.mem_cons.mp hmem with hhead | htail
      · injection hhead with ha hb
        injection hb with hb1 hb2
        subst ha; subst hb1; subst hb2
        refine ⟨StHeaderEntry.mk nm "F32" shape off (off + bytes.length), ?_, rfl, rfl, rfl, ?_, ?_⟩
        · simp only [stEntries, stLookup, List.reverse_cons, List.find?_append]
          have hnone : (stEntries rest (off + bytes.length)).reverse.find?
              (fun e => e.name == nm) = none := by
            rw [List.find?_eq_none]
            intro e he
            have hmemname : e.name ∈ (stEntries rest (off + bytes.length)).map
                (fun e => e.name) :=
              List.mem_map_of_mem _ (List.mem_reverse.mp he)
            rw [stEntries_names] at hmemname
            simp only [beq_iff_eq]
            intro hcontra
            exact hnodup.1 (hcontra ▸ hmemname)
          rw [hnone]
          simp
        · show off + bytes.length - off = bytes.length
          omega
        · have hoff : off + bytes.length - off = bytes.length := by omega
          show ((pre ++ (bytes ++ rest.flatMap (fun x => x.2.1))).drop off).take
            (off + bytes.length - off) = bytes
          rw [hoff, ← hpre, List.drop_left, List.take_left]
      · obtain ⟨e, he1, he2, he3, he4, he5, he6⟩ :=
          ih (off + b'.length) (pre ++ b') (by simp [hpre]) hnodup.2 htail
        refine ⟨e, ?_, he2, he3, he4, he5, ?_⟩
        · simp only [stEntries, stLookup, List.reverse_cons, List.find?_append]
          simp only [stLookup] at he1
          rw [he1]
          simp
        · rw [List.flatMap_cons, ← List.append_assoc]
          exact he6

/-- Claim C5: writing a list of named F32 tensors with the SafeTensors
writer and re-parsing the result with the SafeTensors loader returns, for
each written name, the same name, the same shape, dtype F32, and
byte-identical data (the loader slices exactly the bytes the writer emitted
for that tensor and decodes them to the original words). -/
theorem write_safetensors_roundtrip (tensors : List (String × StTensor))
    (hnodup : (tensors.map (fun p => p.1)).Nodup)
    (hw : ∀ p ∈ tensors, ∀ w ∈ p.2.words, w < 2 ^ 32)
    (hlen : ∀ p ∈ tensors, p.2.words.length = p.2.shape.prod) :
    ∀ p ∈ tensors,
      load_safetensors_tensor (write_safetensors tensors) p.1 =
        .ok ("F32", p.2.shape, p.2.words) := by
  intro p hp
  set td := tensors.map (fun q => (q.1, bytesOfWords q.2.words, q.2.shape)) with htd
  have hmem : (p.1, bytesOfWords p.2.words, p.2.shape) ∈ td :=
    htd ▸ List.mem_map_of_mem _ hp
  have hnd : (td.map (fun x => x.1)).Nodup := by
    rw [htd, List.map_map]
    exact hnodup
  obtain ⟨e, he1, he2, he3, he4, he5, he6⟩ :=
    st_lookup_slice td 0 [] rfl hnd p.1 (bytesOfWords p.2.words) p.2.shape hmem
  rw [List.nil_append] at he6
  have hentries : (write_safetensors tensors).entries = stEntries td 0 := rfl
  have hdata : (write_safetensors tensors).data = td.flatMap (fun x => x.2.1) := rfl
  have hblen : (bytesOfWords p.2.words).length = p.2.shape.prod * 4 := by
    rw [bytesOfWords_length, hlen p hp]
    omega
  simp only [load_safetensors_tensor, hentries, hdata, he1]
  rw [he3]
  simp only [beq_self_eq_true, if_true, he4, he6, hblen]
  rw [if_neg (by omega)]
  rw [wordsOfBytes_bytesOfWords p.2.words (hw p hp)]
  rw [if_pos (hlen p hp)]

/-- Witness for C5: two tensors written and the first re-read intact. -/
theorem write_safetensors_roundtrip_witness :
    load_safetensors_tensor
        (write_safetensors [("a", StTensor.mk [2] [7, 8]), ("b", StTensor.mk [1] [9])]) "a" =
      .ok ("F32", [2], [7, 8]) :=
  write_safetensors_roundtrip
    [("a", StTensor.mk [2] [7, 8]), ("b", StTensor.mk [1] [9])]
    (by decide) (by decide) (by decide)
    ("a", StTensor.mk [2] [7, 8]) (by decide)

/-! Embedding of the SLERP strategy (src-tauri/src/merge/methods/slerp.rs).
The numeric core works over the reals; a dense tensor is its flattened
buffer, a function `Fin n → ℝ` (the source flattens before the dot product
and operates elementwise afterwards, so the shape never matters). -/

/-- The L2 norm computed by `slerp_tensors`:
`flat.sqr().sum_all().sqrt()`. -/
noncomputable def l2norm {n : ℕ} (v : Fin n → ℝ) : ℝ :=
  Real.sqrt (∑ i, v i ^ 2)

/-- Embedding of `slerp_tensors` (slerp.rs, lines 33-87): degenerate norms
(below 1e-10) fall back to linear interpolation, the cosine of the angle is
the dot product of the unit vectors clamped to [-1, 1], a near-parallel pair
(|dot| > 0.9995) also falls back to linear interpolation, and otherwise the
result interpolates along the geodesic with sin((1-t)w)/sin(w) and
sin(tw)/sin(w) coefficients applied to the original (non-unit) tensors. -/
noncomputable def slerp_tensors {n : ℕ} (a b : Fin n → ℝ) (t : ℝ) : Fin n → ℝ :=
  let a_norm := l2norm a
  let b_norm := l2norm b
  if a_norm < 1e-10 ∨ b_norm < 1e-10 then
    fun i => (1 - t) * a i + t * b i
  else
    let dot0 := ∑ i, (a i / a_norm) * (b i / b_norm)
    let dot := max (-1 : ℝ) (min 1 dot0)
    if 0.9995 < |dot| then
      fun i => (1 - t) * a i + t * b i
    else
      let om := Real.arccos dot
      fun i => (Real.sin ((1 - t) * om) / Real.sin om) * a i +
        (Real.sin (t * om) / Real.sin om) * b i

/-- Embedding of `SlerpMerge::merge` (slerp.rs, lines 11-26): fewer than two
tensors is an error, otherwise the first two tensors are interpolated with
`params.t` (default 0.5); weights are ignored. -/
noncomputable def slerpMerge {n : ℕ} (tensors : List ((Fin n → ℝ) × ℚ))
    (params : MethodParams) : Except MError (Fin n → ℝ) :=
  match tensors with
  | p :: q :: _ => .ok (slerp_tensors p.1 q.1 ((params.t.getD (1 / 2) : ℚ) : ℝ))
  | _ => .error (.mergeError "SLERP requires exactly 2 tensors")

theorem slerp_sin_omega_ne_zero (d : ℝ) (habs : |d| ≤ 0.9995) :
    Real.sin (Real.arccos d) ≠ 0 := by
  rw [Real.sin_arccos]
  have hd := abs_le.mp habs
  have hpos : 0 < 1 - d ^ 2 := by nlinarith [hd.1, hd.2]
  exact ne_of_gt (Real.sqrt_pos.mpr hpos)

theorem slerp_tensors_t0 {n : ℕ} (a b : Fin n → ℝ) : slerp_tensors a b 0 = a := by
  simp only [slerp_tensors]
  split_ifs with h1 h2
  · funext i; ring
  · funext i; ring
  · have habs : |max (-1 : ℝ) (min 1 (∑ i, a i / l2norm a * (b i / l2norm b)))| ≤ 0.9995 :=
      not_lt.mp h2
    have hsin := slerp_sin_omega_ne_zero _ habs
    funext i
    rw [sub_zero, one_mul, zero_mul, Real.sin_zero, zero_div, zero_mul, add_zero,
      div_self hsin, one_mul]

theorem slerp_tensors_t1 {n : ℕ} (a b : Fin n → ℝ) : slerp_tensors a b 1 = b := by
  simp only [slerp_tensors]
  split_ifs with h1 h2
  · funext i; ring
  · funext i; ring
  · have habs : |max (-1 : ℝ) (min 1 (∑ i, a i / l2norm a * (b i / l2norm b)))| ≤ 0.9995 :=
      not_lt.mp h2
    have hsin := slerp_sin_omega_ne_zero _ habs
    funext i
    rw [sub_self, zero_mul, Real.sin_zero, zero_div, zero_mul, zero_add, one_mul,
      div_self hsin, one_mul]

theorem slerp_tensors_half_same {n : ℕ} (a : Fin n → ℝ) :
    slerp_tensors a a (1 / 2) = a := by
  simp only [slerp_tensors]
  split_ifs with h1 h2
  · funext i; ring
  · funext i; ring
  · exfalso
    apply h2
    have hnorm : ¬ l2norm a < 1e-10 := by
      intro hc
      exact h1 (Or.inl hc)
    have hpos : (0 : ℝ) < l2norm a := lt_of_lt_of_le (by norm_num) (not_lt.mp hnorm)
    have hsq : l2norm a * l2norm a = ∑ i, a i ^ 2 := by
      exact Real.mul_self_sqrt (Finset.sum_nonneg (fun i _ => sq_nonneg (a i)))
    have hsum_pos : (0 : ℝ) < ∑ i, a i ^ 2 := by
      rw [← hsq]
      positivity
    have hdot : (∑ i, a i / l2norm a * (a i / l2norm a)) = 1 := by
      have : (∑ i, a i / l2norm a * (a i / l2norm a)) =
          (∑ i, a i ^ 2) / (l2norm a * l2norm a) := by
        rw [Finset.sum_div]
        apply Finset.sum_congr rfl
        intro i _
        field_simp
        ring
      rw [this, hsq, div_self (ne_of_gt hsum_pos)]
    rw [hdot]
    norm_num

/-- Claim C2: `SlerpMerge::merge` on two tensors returns the first tensor at
t = 0 and the second at t = 1 (exactly, hence within tolerance 1e-5), and
with t = 0.5 and equal inputs returns the input. -/
theorem slerpMerge_boundary {n : ℕ} (a b : Fin n → ℝ) (w1 w2 : ℚ) :
    slerpMerge [(a, w1), (b, w2)] { MethodParams.defaults with t := some 0 } = .ok a ∧
    slerpMerge [(a, w1), (b, w2)] { MethodParams.defaults with t := some 1 } = .ok b ∧
    slerpMerge [(a, w1), (a, w2)] { MethodParams.defaults with t := some (1 / 2) } =
      .ok a := by
  refine ⟨?_, ?_, ?_⟩
  · show Except.ok (slerp_tensors a b (((0 : ℚ) : ℝ))) = .ok a
    rw [Rat.cast_zero, slerp_tensors_t0]
  · show Except.ok (slerp_tensors a b (((1 : ℚ) : ℝ))) = .ok b
    rw [Rat.cast_one, slerp_tensors_t1]
  · show Except.ok (slerp_tensors a a (((1 / 2 : ℚ) : ℝ))) = .ok a
    rw [show (((1 / 2 : ℚ) : ℝ)) = 1 / 2 by norm_num, slerp_tensors_half_same]

/-! Embedding of the streaming executor's control flow
(src-tauri/src/merge/executor.rs, lines 56-333) for the cancellation claim.
File-system effects are tracked as sets of directory and file paths; the
cooperative cancel flag is a function of the index of the read (the source
reads the shared `AtomicBool` once before the writer is opened, once after
the manifest is built, and once before every plan operation). -/

/-- Abstract file-system state: which directories and files exist. -/
structure FS where
  dirs : List String
  files : List String
deriving DecidableEq

/-- Effect of `std::fs::create_dir_all`. -/
def addDir (p : String) (fs : FS) : FS := FS.mk (fs.dirs ++ [p]) fs.files

/-- Effect of creating a file at a path. -/
def addFile (p : String) (fs : FS) : FS := FS.mk fs.dirs (fs.files ++ [p])

/-- Effect of `std::fs::remove_file` (the executor ignores its result). -/
def removeFile (p : String) (fs : FS) : FS :=
  FS.mk fs.dirs (fs.files.filter (fun q => q != p))

/-- Modelled from the spec: `StreamingSafeTensorsWriter::new` and
`StreamingGgufWriter::new` are referenced by executor.rs but their
implementation is not among the provided sources.  Spec section 4.3 states
the manifest lets the executor open an output file before any tensor data
exists, so writer construction is modelled as creating the output file. -/
def streamWriterOpen (path : String) (fs : FS) : FS := addFile path fs

/-- Modelled from the spec: `StreamWriter::write_tensor` streams one
tensor's bytes into the already-created output file (spec section 4.7); the
claims only consult which paths exist, so the state is unchanged. -/
def streamWriterWriteTensor (fs : FS) : FS := fs

/-- Whether one plan operation resolves against the registry (every parent
id it names is present), which is what the executor's `?` propagation needs
to not abort before the cancellation check under scrutiny. -/
def opResolves (registry : ParentRegistry) : TensorOperation → Bool
  | .copy _ pid => (registry.get pid).isSome
  | .merge _ pids _ => pids.all (fun pid => (registry.get pid).isSome)
  | .synthesize _ _ _ => true
  | .copyMetadata _ => true

/-- One iteration of the executor's merge loop without its cancellation
check (executor.rs, lines 171-282): Copy and Merge resolve their parents
(the tensor loads, the projection step and the strategy's arithmetic are
abstracted as succeeding — their numeric failure modes are outside this
claim), Synthesize always succeeds, CopyMetadata is deferred. -/
def execOp (registry : ParentRegistry) : TensorOperation → Except MError Unit
  | .copy _ pid =>
    match registry.get pid with
    | none => .error (.parentNotFound pid)
    | some _ => .ok ()
  | .merge _ pids _ =>
    match pids.find? (fun pid => !(registry.get pid).isSome) with
    | some pid => .error (.parentNotFound pid)
    | none => .ok ()
  | .synthesize _ _ _ => .ok ()
  | .copyMetadata _ => .ok ()

/-- The executor's streaming merge loop (executor.rs, lines 164-283): before
each operation the cancel flag is read (read index `k`); a set flag drops
the writer, removes the output file and returns the distinct
`MergeCancelled` error; otherwise the operation executes and the loop
continues. -/
def execLoop (cancel : ℕ → Bool) (registry : ParentRegistry) (file_path : String) :
    List TensorOperation → ℕ → FS → Except MError Unit × FS
  | [], _, fs => (.ok (), fs)
  | op :: rest, k, fs =>
    if cancel k then (.error .mergeCancelled, removeFile file_path fs)
    else
      match execOp registry op with
      | .error e => (.error e, fs)
      | .ok _ => execLoop cancel registry file_path rest (k + 1) (streamWriterWriteTensor fs)

/-- The path of the file the executor actually writes
(executor.rs, lines 121-161): `output_path/model.safetensors` for
SafeTensors output, the output path itself for GGUF. -/
def actualFilePath (config : MergeConfig) : String :=
  match config.output.format with
  | .safeTensors => config.output.path ++ "/model.safetensors"
  | .gguf => config.output.path

/-- Embedding of `execute_merge` (executor.rs, lines 56-333): cancel checks
after validation (read 0) and after the manifest (read 1), then writer
construction (SafeTensors creates the output directory and
`model.safetensors` inside it; GGUF needs a metadata parent and creates the
file at the output path), the merge loop with reads 2, 3, ..., and the
finalize / auxiliary-copy / verify phases, which do not change which paths
exist underneath the claims. -/
def executeMerge (cancel : ℕ → Bool) (config : MergeConfig)
    (plan : TensorMergePlan) (registry : ParentRegistry) (fs0 : FS) :
    Except MError Unit × FS :=
  if cancel 0 then (.error .mergeCancelled, fs0)
  else
    match build_output_manifest plan.operations registry with
    | .error e => (.error e, fs0)
    | .ok _ =>
      if cancel 1 then (.error .mergeCancelled, fs0)
      else
        match config.output.format with
        | .safeTensors =>
          let file_path := config.output.path ++ "/model.safetensors"
          let fs1 := streamWriterOpen file_path (addDir config.output.path fs0)
          let r := execLoop cancel registry file_path plan.operations 2 fs1
          match r.1 with
          | .error e => (.error e, r.2)
          | .ok _ => (.ok (), r.2)
        | .gguf =>
          match (resolveBaseParent config registry).orElse
              (fun _ => registry.parents.head?) with
          | none => (.error (.mergeError "No parent for metadata"), fs0)
          | some _ =>
            let fs1 := streamWriterOpen config.output.path fs0
            let r := execLoop cancel registry config.output.path plan.operations 2 fs1
            match r.1 with
            | .error e => (.error e, r.2)
            | .ok _ => (.ok (), r.2)

theorem removeFile_not_mem (p : String) (fs : FS) : p ∉ (removeFile p fs).files := by
  simp [removeFile]

theorem execOp_ok_of_resolves (registry : ParentRegistry) (op : TensorOperation)
    (h : opResolves registry op = true) : execOp registry op = .ok () := by
  match op with
  | .copy nm pid =>
    simp only [opResolves] at h
    obtain ⟨q, hq⟩ := Option.isSome_iff_exists.mp h
    simp [execOp, hq]
  | .merge nm pids ws =>
    simp only [opResolves, List.all_eq_true] at h
    have hfind : pids.find? (fun pid => (registry.get pid).isNone) = none := by
      rw [List.find?_eq_none]
      intro pid hpid
      obtain ⟨q, hq⟩ := Option.isSome_iff_exists.mp (h pid hpid)
      simp [hq]
    simp [execOp, hfind]
  | .synthesize nm shape strat => rfl
  | .copyMetadata pid => rfl

theorem execLoop_cancelled (cancel : ℕ → Bool) (registry : ParentRegistry)
    (fp : String) (ops : List TensorOperation) (k : ℕ) (fs : FS)
    (hres : ∀ op ∈ ops, opResolves registry op = true)
    (hj : ∃ j, k ≤ j ∧ j < k + ops.length ∧ cancel j = true) :
    execLoop cancel registry fp ops k fs = (.error .mergeCancelled, removeFile fp fs) := by
  induction ops generalizing k fs with
  | nil =>
    obtain ⟨j, hj1, hj2, _⟩ := hj
    simp only [List.length_nil] at hj2
    omega
  | cons op rest ih =>
    by_cases hck : cancel k = true
    · simp [execLoop, hck]
    · have hckf : cancel k = false := Bool.not_eq_true _ ▸ (by simpa using hck)
      have hexec := execOp_ok_of_resolves registry op (hres op (by simp))
      simp only [execLoop, hckf, Bool.false_eq_true, if_false, hexec]
      apply ih
      · intro o ho; exact hres o (by simp [ho])
      · obtain ⟨j, hj1, hj2, hj3⟩ := hj
        refine ⟨j, ?_, ?_, hj3⟩
        · rcases Nat.eq_or_lt_of_le hj1 with heq | hlt
          · exfalso; rw [← heq] at hj3; rw [hj3] at hckf; cases hckf
          · omega
        · simp only [List.length_cons] at hj2; omega

/-- Parent model used by the cancellation scenario. -/
def c7Parent : ParentModel :=
  { sampleParent 0 with
    id := "p1"
    compat := CompatInfo.mk none none none none none none none
      [TensorMeta.mk "t0" [1] "F32", TensorMeta.mk "t1" [1] "F32"] }

/-- SafeTensors merge configuration used by the cancellation scenario. -/
def c7Config : MergeConfig :=
  MergeConfig.mk [ParentWeight.mk "p1" 1] .average MethodParams.defaults none [] [] []
    (OutputConfig.mk .safeTensors "out" "m") none none [] 1

/-- Two-tensor plan used by the cancellation scenario. -/
def c7Plan : TensorMergePlan :=
  TensorMergePlan.mk
    [.copy "t0" "p1", .copy "t1" "p1", .copyMetadata "p1"] 3 .average 0

/-- Counterexample for C7 as stated: a SafeTensors merge to target path
`out`, cancelled after the first tensor operation (the flag turns on at
read index 3), returns the distinct cancellation error and deletes the
partially written `out/model.safetensors` — but the target output path
`out` is a directory the executor created, and it still exists afterward,
so "the target output path does not exist afterward" fails. -/
theorem execute_merge_cancel_target_path_remains :
    executeMerge (fun k => decide (3 ≤ k)) c7Config c7Plan
        (ParentRegistry.mk [c7Parent]) (FS.mk [] []) =
      (.error .mergeCancelled, FS.mk ["out"] []) ∧
    c7Config.output.path = "out" ∧
    "out" ∈ (FS.mk ["out"] ([] : List String)).dirs ∧
    actualFilePath c7Config ∉ (FS.mk ["out"] ([] : List String)).files := by
  refine ⟨rfl, rfl, by simp, by simp⟩

/-- Claim C7, amended: if the cancel flag is still clear at the checks up to
and including the one before the first tensor operation (reads 0, 1, 2) and
is observed set at some later in-loop check before the plan's operations run
out, `execute_merge` returns the distinct `MergeCancelled` error (not a
generic failure) and the partially written output file is deleted, so the
output file's path does not exist afterward.  The original claim's stronger
conclusion — that the target output path itself does not exist — holds for
GGUF output, where the target path is the output file, but not for
SafeTensors output, where the directory created at the target path remains
(only `model.safetensors` inside it is removed); the counterexample records
this. -/
theorem execute_merge_cancelled_cleanup (cancel : ℕ → Bool)
    (config : MergeConfig) (plan : TensorMergePlan) (registry : ParentRegistry)
    (fs0 : FS)
    (h0 : cancel 0 = false) (h1 : cancel 1 = false) (h2 : cancel 2 = false)
    (hpar : registry.parents ≠ [])
    (hres : ∀ op ∈ plan.operations, opResolves registry op = true)
    (hman : ∃ m, build_output_manifest plan.operations registry = .ok m)
    (hj : ∃ j, 2 < j ∧ j < 2 + plan.operations.length ∧ cancel j = true) :
    (executeMerge cancel config plan registry fs0).1 = .error .mergeCancelled ∧
    actualFilePath config ∉ ((executeMerge cancel config plan registry fs0).2).files := by
  obtain ⟨m, hm⟩ := hman
  obtain ⟨j, hj1, hj2, hj3⟩ := hj
  have hjw : ∃ j, 2 ≤ j ∧ j < 2 + plan.operations.length ∧ cancel j = true :=
    ⟨j, by omega, hj2, hj3⟩
  cases hfmt : config.output.format with
  | safeTensors =>
    have hloop := execLoop_cancelled cancel registry
      (config.output.path ++ "/model.safetensors") plan.operations 2
      (streamWriterOpen (config.output.path ++ "/model.safetensors")
        (addDir config.output.path fs0)) hres hjw
    have hrun : executeMerge cancel config plan registry fs0 =
        (.error .mergeCancelled,
          removeFile (config.output.path ++ "/model.safetensors")
            (streamWriterOpen (config.output.path ++ "/model.safetensors")
              (addDir config.output.path fs0))) := by
      simp only [executeMerge, h0, hm, h1, hfmt, Bool.false_eq_true, if_false, hloop]
    rw [hrun]
    refine ⟨rfl, ?_⟩
    show actualFilePath config ∉ (removeFile (config.output.path ++ "/model.safetensors") _).files
    have hpath : actualFilePath config = config.output.path ++ "/model.safetensors" := by
      simp [actualFilePath, hfmt]
    rw [hpath]
    apply removeFile_not_mem
  | gguf =>
    have hmeta : ∃ p, (resolveBaseParent config registry).orElse
        (fun _ => registry.parents.head?) = some p := by
      cases hrb : resolveBaseParent config registry with
      | some bp => exact ⟨bp, rfl⟩
      | none =>
        match hp : registry.parents with
        | [] => exact absurd hp hpar
        | q :: rest => exact ⟨q, by simp [Option.orElse, hp]⟩
    obtain ⟨p, hpmeta⟩ := hmeta
    have hloop := execLoop_cancelled cancel registry config.output.path
      plan.operations 2 (streamWriterOpen config.output.path fs0) hres hjw
    have hrun : executeMerge cancel config plan registry fs0 =
        (.error .mergeCancelled,
          removeFile config.output.path (streamWriterOpen config.output.path fs0)) := by
      simp only [executeMerge, h0, hm, h1, hfmt, hpmeta, Bool.false_eq_true, if_false, hloop]
    rw [hrun]
    refine ⟨rfl, ?_⟩
    have hpath : actualFilePath config = config.output.path := by
      simp [actualFilePath, hfmt]
    rw [hpath]
    apply removeFile_not_mem

/-- Witness for C7 (amended) at the concrete cancellation scenario. -/
theorem execute_merge_cancelled_cleanup_witness :
    (executeMerge (fun k => decide (3 ≤ k)) c7Config c7Plan
        (ParentRegistry.mk [c7Parent]) (FS.mk [] [])).1 = .error .mergeCancelled ∧
    actualFilePath c7Config ∉
      ((executeMerge (fun k => decide (3 ≤ k)) c7Config c7Plan
        (ParentRegistry.mk [c7Parent]) (FS.mk [] [])).2).files :=
  execute_merge_cancelled_cleanup (fun k => decide (3 ≤ k)) c7Config c7Plan
    (ParentRegistry.mk [c7Parent]) (FS.mk [] [])
    rfl rfl rfl (by decide) (by decide) ⟨_, rfl⟩ ⟨3, by omega, by simp [c7Plan], rfl⟩
